import Mathlib

/-!
Verification of the X-Shield moderation pipeline.

This file shallowly embeds the parts of the X-Shield extension relevant to
its specification: the content fingerprint (djb2 hash), the verdict cache
with LRU eviction, verdict normalization and the fail-closed oracle client
(background.js), the quota/lockout heartbeat state machine and message
handler (background.js), and the content script's thread-context override
and batch reordering (content script).

JS machine integers are modelled with Int/Nat and explicit reductions
modulo 2^32; JS strings are modelled as Lean strings, and for the hash as
lists of code-unit values.  JS objects used as string-keyed maps are
modelled as association lists whose key order mirrors JS insertion order.
-/

namespace XShield

/-- JS ToInt32: reduce an integer to the signed 32-bit range, as done by
the bitwise operators (x | 0, x << n). -/
def toInt32 (n : Int) : Int :=
  (n + 2147483648) % 4294967296 - 2147483648

/-- JS ToUint32: reduce an integer to the unsigned 32-bit range, as done
by the unsigned shift (x >>> 0). -/
def toUint32 (n : Int) : Nat :=
  (n % 4294967296).toNat

/-- JS Number.prototype.toString(16) for a nonnegative integer: lowercase
hexadecimal digits. -/
def natToHex (n : Nat) : String :=
  String.mk (Nat.toDigits 16 n)

/-- JS truthiness of a nullable string: null/undefined and the empty
string are falsy. -/
def jsTruthy : Option String → Bool
  | none => false
  | some s => s ≠ ""

/-- JS expression (s || fallback) for a nullable string s. -/
def jsOrStr (o : Option String) (fallback : String) : String :=
  match o with
  | none => fallback
  | some s => if s = "" then fallback else s

/-- JS expression (s || null) for a nullable string s: an empty string
collapses to null. -/
def jsOrNull (o : Option String) : Option String :=
  if jsTruthy o then o else none

/-- ASCII lowercasing of one character, as String.prototype.toLowerCase
acts on the oracle's ASCII verdict labels. -/
def charToLower (c : Char) : Char :=
  if 65 ≤ c.toNat ∧ c.toNat ≤ 90 then Char.ofNat (c.toNat + 32) else c

/-- JS String.prototype.toLowerCase restricted to ASCII input. -/
def jsToLower (s : String) : String :=
  String.mk (s.data.map charToLower)

namespace Background

/-- One step of the djb2-style loop in background.js contentHash:
hash = ((hash << 5) - hash) + str.charCodeAt(i); hash |= 0.
The shift coerces to int32 and wraps; the subtraction and addition are
exact in double precision; the final |= 0 coerces to int32 again. -/
def contentHashStep (hash : Int) (c : Nat) : Int :=
  toInt32 (toInt32 (hash * 32) - hash + c)

/-- The numeric value (hash >>> 0) computed by background.js contentHash
over the string's code units. -/
def contentHashVal (units : List Nat) : Nat :=
  toUint32 (units.foldl contentHashStep 5381)

/-- background.js contentHash: djb2-style hash returning a hex string. -/
def contentHash (units : List Nat) : String :=
  natToHex (contentHashVal units)

end Background

namespace Content

/-- One step of the djb2-style loop in the content script's contentHash
(identical source text to the background copy). -/
def contentHashStep (hash : Int) (c : Nat) : Int :=
  toInt32 (toInt32 (hash * 32) - hash + c)

/-- The numeric value (hash >>> 0) computed by the content script's
contentHash over the string's code units. -/
def contentHashVal (units : List Nat) : Nat :=
  toUint32 (units.foldl contentHashStep 5381)

/-- The content script's contentHash: djb2-style hash returning a hex
string. -/
def contentHash (units : List Nat) : String :=
  natToHex (contentHashVal units)

end Content

/-- Code units of a Lean string, standing for the JS string's code
units fed to charCodeAt. -/
def strUnits (s : String) : List Nat :=
  s.data.map Char.toNat

/-- Hash of a Lean string through the background implementation. -/
def hashStr (s : String) : String :=
  Background.contentHash (strUnits s)

/-! ### Verdict cache (background.js) -/

def CACHE_TTL_MS : Nat := 24 * 60 * 60 * 1000

def CACHE_MAX_ENTRIES : Nat := 500

/-- A cache record: { verdict, reason, timestamp, distilled? }. -/
structure CacheEntry where
  verdict : String
  reason : String
  distilled : Option String
  timestamp : Nat
deriving DecidableEq, Repr

/-- The cacheMemory JS object: a string-keyed map modelled as an
association list in JS key insertion order. -/
abbrev Cache := List (String × CacheEntry)

/-- JS object property write m[k] = v: overwrite in place if the key
exists, else append (string keys keep insertion order). -/
def assocSet (l : Cache) (k : String) (v : CacheEntry) : Cache :=
  if l.any (fun p => p.1 = k) then
    l.map (fun p => if p.1 = k then (k, v) else p)
  else
    l ++ [(k, v)]

/-- Comparator used by setCacheEntry's eviction sort:
(a, b) => (cacheMemory[a].timestamp || 0) - (cacheMemory[b].timestamp || 0).
Sorting an object's keys by their entries' timestamps is modelled as a
stable sort of the (key, entry) pairs by timestamp (Array.prototype.sort
is stable). -/
def tsLE (a b : String × CacheEntry) : Prop :=
  a.2.timestamp ≤ b.2.timestamp

instance : DecidableRel tsLE := fun a b => Nat.decLe a.2.timestamp b.2.timestamp

instance : IsTotal (String × CacheEntry) tsLE :=
  ⟨fun a b => Nat.le_total a.2.timestamp b.2.timestamp⟩

instance : IsTrans (String × CacheEntry) tsLE :=
  ⟨fun _ _ _ h h' => Nat.le_trans h h'⟩

/-- background.js setCacheEntry: evict the oldest entries when at or
above capacity, then write the new entry (distilled only when truthy). -/
def setCacheEntry (cache : Cache) (hash verdict reason : String)
    (distilled : Option String) (now : Nat) : Cache :=
  let cache1 :=
    if CACHE_MAX_ENTRIES ≤ cache.length then
      let sorted := List.insertionSort tsLE cache
      let toRemove := (sorted.take (cache.length - CACHE_MAX_ENTRIES + 1)).map Prod.fst
      cache.filter (fun p => !(toRemove.contains p.1))
    else cache
  assocSet cache1 hash
    { verdict := verdict, reason := reason,
      distilled := jsOrNull distilled, timestamp := now }

/-- The timestamp-sorted entry list computed in setCacheEntry's eviction
branch (names the first let-bound intermediate). -/
def evictSorted (cache : Cache) : Cache :=
  List.insertionSort tsLE cache

/-- The number of entries setCacheEntry's eviction branch removes:
keys.length - CACHE_MAX_ENTRIES + 1. -/
def evictCount (cache : Cache) : Nat :=
  cache.length - CACHE_MAX_ENTRIES + 1

/-- The keys setCacheEntry's eviction branch removes (the toRemove
array). -/
def evictKeys (cache : Cache) : List String :=
  ((evictSorted cache).take (evictCount cache)).map Prod.fst

/-- The cache remaining after setCacheEntry's eviction branch deletes
the toRemove keys. -/
def evictKept (cache : Cache) : Cache :=
  cache.filter (fun p => !((evictKeys cache).contains p.1))

/-- A concrete cache at capacity: 500 entries with pairwise-distinct
keys and increasing timestamps, used to exhibit eviction. -/
def fullCacheExample : Cache :=
  (List.range 500).map (fun i =>
    (String.mk (List.replicate i 'a'), ⟨"allow", "r", none, i⟩))

/-- background.js getCacheEntry: miss on absent key; expired entries are
deleted and reported as a miss. -/
def getCacheEntry (cache : Cache) (hash : String) (now : Nat) :
    Cache × Option CacheEntry :=
  match cache.find? (fun p => p.1 = hash) with
  | none => (cache, none)
  | some p =>
    if CACHE_TTL_MS < now - p.2.timestamp then
      (cache.filter (fun q => !(q.1 = hash : Bool)), none)
    else
      (cache, some p.2)

/-- background.js cleanExpiredCache: drop every entry older than TTL. -/
def cleanExpiredCache (cache : Cache) (now : Nat) : Cache :=
  cache.filter (fun p => !(CACHE_TTL_MS < now - p.2.timestamp : Bool))

/-! ### Verdict normalization and the oracle client (background.js) -/

def NOURISH_VERDICTS : List String := ["nourish", "beneficial", "nurture", "promote"]

def SHOW_VERDICTS : List String := ["show", "allow", "approve", "keep", "display", "visible"]

def DISTILL_VERDICTS : List String := ["distill", "rewrite", "summarize"]

/-- A tweet as received by the background classifier. -/
structure Tweet where
  id : String
  text : String
  imageUrls : List String
deriving DecidableEq, Repr

/-- The cache key computed for a tweet:
contentHash(tweet.text + (tweet.imageUrls || []).join(',')). -/
def tweetHash (t : Tweet) : String :=
  hashStr (t.text ++ String.intercalate "," t.imageUrls)

/-- One entry of the oracle's raw verdict array; any field may be
missing in the JSON. -/
structure RawVerdict where
  id : Option String
  verdict : Option String
  reason : Option String
  distilled : Option String
deriving DecidableEq, Repr

/-- Result of background.js normalizeVerdict. -/
structure NormVerdict where
  verdict : String
  reason : String
  distilled : Option String
deriving DecidableEq, Repr

/-- background.js normalizeVerdict: map the oracle's raw label onto the
closed verdict set, failing closed to block. -/
def normalizeVerdict (sv : Option RawVerdict) : NormVerdict :=
  match sv with
  | none => ⟨"block", "no verdict returned — fail closed", none⟩
  | some v =>
    match v.verdict with
    | none => ⟨"block", "no verdict returned — fail closed", none⟩
    | some vs =>
      let lv := jsToLower vs
      if NOURISH_VERDICTS.contains lv then
        ⟨"nourish", jsOrStr v.reason "nourishing content", none⟩
      else if DISTILL_VERDICTS.contains lv then
        ⟨"distill", jsOrStr v.reason "distilled", jsOrNull v.distilled⟩
      else if SHOW_VERDICTS.contains lv then
        ⟨"allow", jsOrStr v.reason "approved", none⟩
      else
        ⟨"block", jsOrStr v.reason "filtered", none⟩

/-- One verdict record sent back to the content script. filterAllVerdicts
produces records without hash/distilled fields, modelled as none. -/
structure ResultEntry where
  id : String
  verdict : String
  reason : String
  hash : Option String
  distilled : Option String
deriving DecidableEq, Repr

/-- background.js filterAllVerdicts: the fail-closed verdict generator. -/
def filterAllVerdicts (tweets : List Tweet) (reason : String) : List ResultEntry :=
  tweets.map (fun t =>
    ⟨t.id, "block",
      (if reason = "" then "classification unavailable — fail closed" else reason),
      none, none⟩)

/-- Loop body of background.js normalizeAndCacheVerdicts, carrying the
running tweet index i (the synthetic positional id tweet_i). -/
def normalizeAndCacheGo (raw : List RawVerdict) (now : Nat) :
    Nat → List Tweet → Cache → Cache × List ResultEntry
  | _, [], cache => (cache, [])
  | i, t :: rest, cache =>
    let hash := tweetHash t
    let sv := raw.find? (fun v => v.id == some ("tweet_" ++ Nat.repr i))
    let nv := normalizeVerdict sv
    let cache1 := setCacheEntry cache hash nv.verdict nv.reason nv.distilled now
    let entry : ResultEntry :=
      ⟨t.id, nv.verdict, nv.reason, some hash, jsOrNull nv.distilled⟩
    let res := normalizeAndCacheGo raw now (i + 1) rest cache1
    (res.1, entry :: res.2)

/-- background.js normalizeAndCacheVerdicts. -/
def normalizeAndCacheVerdicts (tweets : List Tweet) (raw : List RawVerdict)
    (cache : Cache) (now : Nat) : Cache × List ResultEntry :=
  normalizeAndCacheGo raw now 0 tweets cache

/-- Outcome of one fetch attempt against the local server: transport
error, non-success status, unparseable body, or a parsed body. -/
inductive AttemptOutcome where
  | netError
  | httpError (status : Nat)
  | parseError
  | success (verdicts : Option (List RawVerdict))
deriving DecidableEq, Repr

/-- background.js attemptServerCall, with the maxAttempts = 2 retry loop
unrolled: the first attempt's failure falls through to the second, whose
failure yields the final error string. A success carries body.verdicts
(none when the verdicts field is not an array). -/
def attemptServerCall (a1 a2 : AttemptOutcome) :
    Except String (Option (List RawVerdict)) :=
  match a1 with
  | .success b => .ok b
  | _ =>
    match a2 with
    | .success b => .ok b
    | .netError => .error "server request failed"
    | .httpError s => .error ("server error: " ++ Nat.repr s)
    | .parseError => .error "malformed server response"

/-- background.js classifyBatch: fail closed on unrecoverable transport
failure and on a malformed verdicts structure; otherwise normalize and
cache. -/
def classifyBatch (tweets : List Tweet) (a1 a2 : AttemptOutcome)
    (cache : Cache) (now : Nat) : Cache × List ResultEntry :=
  match attemptServerCall a1 a2 with
  | .error e => (cache, filterAllVerdicts tweets e)
  | .ok verdicts? =>
    match verdicts? with
    | none => (cache, filterAllVerdicts tweets "malformed verdict structure")
    | some vs => normalizeAndCacheVerdicts tweets vs cache now

/-! ### Content-script verdict application (content script) -/

namespace Content

/-- The content script's applyVerdict, reduced to the presentation class
it puts on the element: recognized verdicts map to their class, anything
else fails closed to the filtered (hidden) class. The pending class is
removed first, so the result class is the element's presentation state. -/
def applyVerdictClass (verdict : String) : String :=
  if verdict = "nourish" then "x-shield-nourished"
  else if verdict = "distill" then "x-shield-distilled"
  else if verdict = "allow" then "x-shield-approved"
  else "x-shield-filtered"

/-- The thread-coherence upgrade inside flushBatch: on a thread page,
a block verdict for a tweet whose author equals the thread anchor author
is upgraded to allow; every other verdict passes through unchanged. -/
def threadOverrideVerdict (onThread : Bool) (threadAuthor : Option String)
    (tweetAuthor : Option String) (verdict : String) : String :=
  if onThread && (verdict == "block") && jsTruthy threadAuthor then
    if tweetAuthor = threadAuthor then "allow" else verdict
  else verdict

/-- The VERDICT_PRIORITY table lookup with the ?? pending fallback:
priorities nourish 0, allow 1, distill 2, block 3, pending 4; any other
verdict falls back to the pending priority 4. -/
def VERDICT_PRIORITY (v : String) : Nat :=
  if v = "nourish" then 0
  else if v = "allow" then 1
  else if v = "distill" then 2
  else if v = "block" then 3
  else if v = "pending" then 4
  else 4

/-- One resolved batch item as seen by reorderBatch: the id of its
cellInnerDiv wrapper (none when getCellWrapper finds none), whether that
cell contains a tweet article, and its applied verdict. -/
structure BatchItem where
  cellId : Option String
  cellHasTweet : Bool
  verdict : String
deriving DecidableEq, Repr

/-- The entry-collection loop of reorderBatch: keep only items with a
cell wrapper containing a tweet article, tagging each cell with its
verdict priority. -/
def eligibleEntries (items : List BatchItem) : List (String × Nat) :=
  items.filterMap (fun it =>
    match it.cellId with
    | none => none
    | some c => if it.cellHasTweet then some (c, VERDICT_PRIORITY it.verdict) else none)

/-- The comparator of reorderBatch's sort: (a, b) => a.priority -
b.priority. The JS sort is stable, so it is modelled by a stable
insertion sort under this relation. -/
def prioLE (a b : String × Nat) : Prop :=
  a.2 ≤ b.2

instance : DecidableRel prioLE := fun a b => Nat.decLe a.2 b.2

/-- DOM insertBefore of a parent's existing child x before the child rr,
on the parent's child list: x is first removed, then inserted before the
first occurrence of rr; inserting a node before itself is a no-op. -/
def insertBeforeIn : List String → String → String → List String
  | [], x, _ => [x]
  | a :: t, x, r => if a = r then x :: a :: t else a :: insertBeforeIn t x r

/-- DOM parent.insertBefore(x, r) on the child list: r = none appends
(insertBefore with a null reference). -/
def domInsertBefore (l : List String) (x : String) (r : Option String) : List String :=
  match r with
  | none => l.erase x ++ [x]
  | some rr => if x = rr then l else insertBeforeIn (l.erase x) x rr

/-- DOM nextSibling of child x in the child list. -/
def nextSibling : List String → String → Option String
  | [], _ => none
  | a :: t, x => if a = x then t.head? else nextSibling t x

/-- The insert-before loop of reorderBatch: move each cell (in sorted
order) before the running reference node, then advance the reference to
the moved cell's next sibling. -/
def moveLoop : List String → Option String → List String → List String
  | l, _, [] => l
  | l, r, c :: rest =>
    let l2 := domInsertBefore l c r
    moveLoop l2 (nextSibling l2 c) rest

/-- The isSorted probe of reorderBatch: every position is at least its
predecessor. -/
def isNondecreasing : List Nat → Bool
  | [] => true
  | [_] => true
  | a :: b :: t => decide (a ≤ b) && isNondecreasing (b :: t)

/-- The earliest-index scan of reorderBatch: the minimal index among the
entry cells in the children snapshot (List.indexOf returns the list
length for an absent cell, playing the role of the Infinity sentinel). -/
def earliestIndex (children : List String) (cells : List String) : Nat :=
  (cells.map (fun c => children.indexOf c)).foldl Nat.min children.length

/-- Result of reorderBatch on the parent's child list, with a flag
recording whether any insertBefore move was performed (the
mutation-count probe). -/
structure ReorderResult where
  children : List String
  moved : Bool
deriving DecidableEq, Repr

/-- content script reorderBatch, on the shared parent's child list:
bail out when the feature is disabled or off the feed page, with fewer
than two eligible entries, or when some entry cell is not a child of the
shared parent; sort the entries stably by priority; do nothing when the
cells' document order already matches; otherwise run the insert-before
loop starting at the earliest entry cell. -/
def reorderBatch (onFeed feedReorderingEnabled : Bool) (children : List String)
    (items : List BatchItem) : ReorderResult :=
  if !feedReorderingEnabled || !onFeed then ⟨children, false⟩
  else
    let entries := eligibleEntries items
    if entries.length < 2 then ⟨children, false⟩
    else if !(entries.all (fun e => children.contains e.1)) then ⟨children, false⟩
    else
      let sorted := List.insertionSort prioLE entries
      let currentOrder := sorted.map (fun e => children.indexOf e.1)
      if isNondecreasing currentOrder then ⟨children, false⟩
      else
        let eIdx := earliestIndex children (sorted.map Prod.fst)
        ⟨moveLoop children (children.get? eIdx) (sorted.map Prod.fst), true⟩

/-- Modelled from the spec: the stable sort key "verdict priority, then
original position", where original position is the cell's document
position among the parent's children. -/
def prioPosLE (children : List String) (a b : String × Nat) : Prop :=
  a.2 < b.2 ∨ (a.2 = b.2 ∧ children.indexOf a.1 ≤ children.indexOf b.1)

instance (children : List String) : DecidableRel (prioPosLE children) := fun a b =>
  inferInstanceAs (Decidable (a.2 < b.2 ∨ (a.2 = b.2 ∧
    children.indexOf a.1 ≤ children.indexOf b.1)))

/-- Modelled from the spec: the stable sort of the batch entries by
verdict priority then original document position. -/
def specPrioritySort (children : List String) (entries : List (String × Nat)) :
    List (String × Nat) :=
  List.insertionSort (prioPosLE children) entries

end Content

/-! ### Background store, quota heartbeat and message handler
(background.js) -/

def DEFAULT_TIME_LIMIT_SECONDS : Nat := 900

/-- The dailyUsage record in chrome.storage.local. -/
structure Usage where
  date : String
  seconds : Nat
deriving DecidableEq, Repr

/-- The dailyStats record in chrome.storage.local. -/
structure Stats where
  date : String
  filtered : Nat
  shown : Nat
  analyzed : Nat
  nourished : Nat
  distilled : Nat
deriving DecidableEq, Repr

/-- The settings record in chrome.storage.local; absent fields are
none. -/
structure Settings where
  timeLimitSeconds : Option Nat
  classificationMode : Option String
  feedReorderingEnabled : Option Bool
deriving DecidableEq, Repr

/-- The keys of chrome.storage.local used by the background worker,
together with the in-memory cache mirror. -/
structure Store where
  dailyUsage : Option Usage
  dailyStats : Option Stats
  settings : Option Settings
  apiKey : Option String
  cache : Cache
  locked : Option Bool
deriving DecidableEq, Repr

/-- background.js getDailyUsage: roll the usage record over to a fresh
zeroed record when it is absent or its date is not today. -/
def getDailyUsage (st : Store) (today : String) : Store × Usage :=
  match st.dailyUsage with
  | some u =>
    if u.date = today then (st, u)
    else ({ st with dailyUsage := some ⟨today, 0⟩ }, ⟨today, 0⟩)
  | none => ({ st with dailyUsage := some ⟨today, 0⟩ }, ⟨today, 0⟩)

/-- background.js getTimeLimit. -/
def getTimeLimit (st : Store) : Nat :=
  match st.settings with
  | some s =>
    match s.timeLimitSeconds with
    | some n => n
    | none => DEFAULT_TIME_LIMIT_SECONDS
  | none => DEFAULT_TIME_LIMIT_SECONDS

/-- background.js getDailyStats: same rollover pattern as usage. -/
def getDailyStats (st : Store) (today : String) : Store × Stats :=
  match st.dailyStats with
  | some s =>
    if s.date = today then (st, s)
    else ({ st with dailyStats := some ⟨today, 0, 0, 0, 0, 0⟩ }, ⟨today, 0, 0, 0, 0, 0⟩)
  | none => ({ st with dailyStats := some ⟨today, 0, 0, 0, 0, 0⟩ }, ⟨today, 0, 0, 0, 0, 0⟩)

/-- background.js updateDailyStats. -/
def updateDailyStats (st : Store) (today : String)
    (filtered shown nourished distilled : Nat) : Store :=
  let r := getDailyStats st today
  let s := r.2
  { r.1 with
    dailyStats := some
      ⟨s.date, s.filtered + filtered, s.shown + shown,
        s.analyzed + (filtered + shown), s.nourished + nourished,
        s.distilled + distilled⟩ }

/-- The state effect of background.js enforceLockout (the tab messages
and the close alarm are outside the store). -/
def enforceLockout (st : Store) : Store :=
  { st with locked := some true }

/-- Response of the HEARTBEAT message. -/
structure HBResp where
  timeRemaining : Nat
  locked : Bool
deriving DecidableEq, Repr

/-- The HEARTBEAT case of the background onMessage listener: roll over
usage, answer immediately when locked, else add the 10-second heartbeat
interval and lock out when the limit is reached. Nat subtraction models
Math.max(0, timeLimit - usage.seconds). -/
def heartbeatStep (st : Store) (today : String) : Store × HBResp :=
  let r := getDailyUsage st today
  let st1 := r.1
  let usage := r.2
  let timeLimit := getTimeLimit st1
  if st1.locked = some true then (st1, ⟨0, true⟩)
  else
    let usage2 : Usage := ⟨usage.date, usage.seconds + 10⟩
    let st2 := { st1 with dailyUsage := some usage2 }
    let timeRemaining := timeLimit - usage2.seconds
    if timeLimit ≤ usage2.seconds then (enforceLockout st2, ⟨0, true⟩)
    else (st2, ⟨timeRemaining, false⟩)

/-- Iterated heartbeat ticks (the state after n HEARTBEAT messages on
one day). -/
def iterateHeartbeat (st : Store) (today : String) : Nat → Store
  | 0 => st
  | n + 1 => (heartbeatStep (iterateHeartbeat st today n) today).1

/-- The dailyReset branch of the onAlarm listener: reset usage, clear
the locked flag, sweep expired cache entries, reset stats. -/
def dailyResetAlarm (st : Store) (today : String) (now : Nat) : Store :=
  { st with
    dailyUsage := some ⟨today, 0⟩,
    locked := some false,
    cache := cleanExpiredCache st.cache now,
    dailyStats := some ⟨today, 0, 0, 0, 0, 0⟩ }

/-- JS String.prototype.trim on a string of ASCII characters. -/
def jsTrim (s : String) : String :=
  String.mk (((s.data.dropWhile fun c =>
      c == ' ' || c == '\t' || c == '\n' || c == '\r').reverse.dropWhile fun c =>
      c == ' ' || c == '\t' || c == '\n' || c == '\r').reverse)

/-- The cache-check loop of the CLASSIFY_BATCH handler: split a batch
into cached results and uncached tweets, threading the cache (expired
entries are deleted by getCacheEntry). -/
def splitCached (now : Nat) : List Tweet → Cache → Cache × List ResultEntry × List Tweet
  | [], cache => (cache, [], [])
  | t :: rest, cache =>
    let hash := tweetHash t
    let g := getCacheEntry cache hash now
    match g.2 with
    | some c =>
      let res := splitCached now rest g.1
      (res.1, ⟨t.id, c.verdict, c.reason, some hash, jsOrNull c.distilled⟩ :: res.2.1,
        res.2.2)
    | none =>
      let res := splitCached now rest g.1
      (res.1, res.2.1, t :: res.2.2)

/-- The stats-counting loop of the CLASSIFY_BATCH handler, yielding
(filtered, shown, nourished, distilled). -/
def classifyCounts (verdicts : List ResultEntry) : Nat × Nat × Nat × Nat :=
  verdicts.foldl
    (fun acc v =>
      if v.verdict = "nourish" then (acc.1, acc.2.1 + 1, acc.2.2.1 + 1, acc.2.2.2)
      else if v.verdict = "allow" then (acc.1, acc.2.1 + 1, acc.2.2.1, acc.2.2.2)
      else if v.verdict = "distill" then (acc.1, acc.2.1 + 1, acc.2.2.1, acc.2.2.2 + 1)
      else (acc.1 + 1, acc.2.1, acc.2.2.1, acc.2.2.2))
    (0, 0, 0, 0)

/-- JS expression (settings && settings.feedReorderingEnabled !== false):
false when settings is absent, else true unless the flag is literally
false. -/
def feedReorderFlag (st : Store) : Bool :=
  match st.settings with
  | none => false
  | some s => !(s.feedReorderingEnabled == some false)

/-- One fetch attempt of classifyBatchAPI: transport error, bad status,
unparseable response JSON, or a response whose text content parses (or
not) as a verdict array. -/
inductive APIAttempt where
  | netError
  | httpError (status : Nat)
  | parseError
  | success (content : Option (Option (List RawVerdict)))
deriving DecidableEq, Repr

/-- background.js attemptAPICall with the maxAttempts = 2 loop unrolled.
In a success, none models text that fails JSON.parse, some none a parsed
value that is not an array. -/
def attemptAPICall (b1 b2 : APIAttempt) :
    Except String (Option (Option (List RawVerdict))) :=
  match b1 with
  | .success c => .ok c
  | _ =>
    match b2 with
    | .success c => .ok c
    | .netError => .error "API request failed"
    | .httpError s => .error ("API error: " ++ Nat.repr s)
    | .parseError => .error "malformed API response"

/-- background.js classifyBatchAPI: fail closed on unrecoverable API
failure, unparseable verdict JSON and non-array verdicts; otherwise
normalize and cache. -/
def classifyBatchAPI (tweets : List Tweet) (b1 b2 : APIAttempt)
    (cache : Cache) (now : Nat) : Cache × List ResultEntry :=
  match attemptAPICall b1 b2 with
  | .error e => (cache, filterAllVerdicts tweets e)
  | .ok c =>
    match c with
    | none => (cache, filterAllVerdicts tweets "malformed verdict JSON from API")
    | some none => (cache, filterAllVerdicts tweets "malformed verdict structure from API")
    | some (some vs) => normalizeAndCacheVerdicts tweets vs cache now

/-- Messages accepted by the background onMessage listener. -/
inductive Msg where
  | checkLockout
  | checkApiKey
  | heartbeat
  | classifyBatchMsg (tweets : List Tweet)
  | getStats
  | resetStats
  | setApiKey (key : String)
  | setMode (mode : String)
  | unknown
deriving DecidableEq, Repr

/-- Environment of one message dispatch: the current date and time, the
oracle attempt outcomes for this dispatch, and the local server health
probe result. -/
structure Env where
  today : String
  now : Nat
  serverA1 : AttemptOutcome
  serverA2 : AttemptOutcome
  apiB1 : APIAttempt
  apiB2 : APIAttempt
  healthOk : Bool
deriving DecidableEq, Repr

/-- Responses produced through sendResponse. -/
inductive Resp where
  | nullResp
  | lockoutResp (locked : Bool)
  | keyResp (hasKey : Bool) (mode : String)
  | hbResp (timeRemaining : Nat) (locked : Bool)
  | verdictsResp (verdicts : List ResultEntry) (feedReorderingEnabled : Option Bool)
  | statsResp (filtered shown analyzed nourished distilled timeUsed timeLimit : Nat)
      (feedReorderingEnabled : Bool)
  | okResp
  | modeResp (success : Bool) (mode : String)
deriving DecidableEq, Repr

/-- The dispatch switch of the background onMessage listener (after the
message-shape and sender checks). -/
def handleMessage (env : Env) (msg : Msg) (st : Store) : Store × Resp :=
  match msg with
  | .checkLockout => (st, .lockoutResp (st.locked == some true))
  | .checkApiKey =>
    let mode := jsOrStr (st.settings.bind (fun s => s.classificationMode)) "local"
    if mode = "api" then
      (st, .keyResp (jsTruthy st.apiKey && jsTruthy (st.apiKey.map jsTrim)) "api")
    else
      (st, .keyResp env.healthOk "local")
  | .heartbeat =>
    let r := heartbeatStep st env.today
    (r.1, .hbResp r.2.timeRemaining r.2.locked)
  | .classifyBatchMsg tweets =>
    if tweets.isEmpty then (st, .verdictsResp [] none)
    else
      let sp := splitCached env.now tweets st.cache
      let cachedResults := sp.2.1
      let uncached := sp.2.2
      let mode := jsOrStr (st.settings.bind (fun s => s.classificationMode)) "local"
      let apiRes :=
        if uncached.isEmpty then (sp.1, ([] : List ResultEntry))
        else if mode = "api" && jsTruthy st.apiKey && jsTruthy (st.apiKey.map jsTrim) then
          classifyBatchAPI uncached env.apiB1 env.apiB2 sp.1 env.now
        else
          classifyBatch uncached env.serverA1 env.serverA2 sp.1 env.now
      let allVerdicts := cachedResults ++ apiRes.2
      let counts := classifyCounts allVerdicts
      let st2 := { st with cache := apiRes.1 }
      let st3 := updateDailyStats st2 env.today counts.1 counts.2.1 counts.2.2.1 counts.2.2.2
      (st3, .verdictsResp allVerdicts (some (feedReorderFlag st3)))
  | .getStats =>
    let r1 := getDailyStats st env.today
    let r2 := getDailyUsage r1.1 env.today
    let s := r1.2
    (r2.1, .statsResp s.filtered s.shown s.analyzed s.nourished s.distilled
      r2.2.seconds (getTimeLimit r2.1) (feedReorderFlag r2.1))
  | .resetStats =>
    ({ st with dailyStats := some ⟨env.today, 0, 0, 0, 0, 0⟩ }, .okResp)
  | .setApiKey key =>
    ({ st with apiKey := some (jsTrim key) }, .okResp)
  | .setMode m =>
    let newMode := if m = "api" then "api" else "local"
    let updated :=
      match st.settings with
      | some s => { s with classificationMode := some newMode }
      | none => ⟨none, some newMode, none⟩
    ({ st with settings := some updated }, .modeResp true newMode)
  | .unknown => (st, .nullResp)

/-- The background onMessage listener: reject malformed messages, then
reject messages from any sender other than the extension itself, then
dispatch. -/
def onMessage (extId senderId : String) (env : Env) (msg : Option Msg)
    (st : Store) : Store × Resp :=
  match msg with
  | none => (st, .nullResp)
  | some m =>
    if senderId ≠ extId then (st, .nullResp)
    else handleMessage env m st

end XShield

namespace XShield

/-- C9: the content fingerprint is deterministic (a pure function of the
input units), the background and content-script implementations agree on
every input, and the result is the hex rendering of a 32-bit unsigned
value. -/
theorem c9_contentHash_deterministic_and_equal :
    (∀ u v : List Nat, u = v → Background.contentHash u = Background.contentHash v) ∧
    (∀ u : List Nat, Background.contentHash u = Content.contentHash u) ∧
    (∀ u : List Nat, Background.contentHashVal u < 4294967296 ∧
      Background.contentHash u = natToHex (Background.contentHashVal u)) := by
  refine ⟨fun u v h => by rw [h], fun u => rfl, fun u => ⟨?_, rfl⟩⟩
  unfold Background.contentHashVal toUint32
  have h32 : (0:Int) < 4294967296 := by norm_num
  have hnn : 0 ≤ (List.foldl Background.contentHashStep 5381 u) % 4294967296 :=
    Int.emod_nonneg _ (by norm_num)
  have hlt : (List.foldl Background.contentHashStep 5381 u) % 4294967296 < 4294967296 :=
    Int.emod_lt_of_pos _ h32
  omega

/-! ### Helper lemmas about the oracle client -/

theorem attemptServerCall_error_ne_empty (a1 a2 : AttemptOutcome) (e : String)
    (h : attemptServerCall a1 a2 = Except.error e) : e ≠ "" := by
  have hlen : ∀ s : Nat, ("server error: " ++ Nat.repr s) ≠ "" := by
    intro s hc
    have h2 := congrArg String.length hc
    rw [String.length_append] at h2
    have h14 : ("server error: ").length = 14 := rfl
    have hz : ("" : String).length = 0 := rfl
    rw [h14, hz] at h2
    omega
  cases a1 <;> cases a2 <;>
    simp only [attemptServerCall, Except.error.injEq, reduceCtorEq] at h
  all_goals subst h
  all_goals first | decide | exact hlen _

theorem mem_filterAllVerdicts (tweets : List Tweet) (reason : String)
    (r : ResultEntry) (hr : r ∈ filterAllVerdicts tweets reason) :
    r.verdict = "block" ∧
      r.reason = (if reason = "" then "classification unavailable — fail closed" else reason) := by
  unfold filterAllVerdicts at hr
  obtain ⟨t, _, rfl⟩ := List.mem_map.mp hr
  exact ⟨rfl, rfl⟩

/-! ### Helper lemmas about normalizeAndCacheVerdicts -/

theorem normalizeAndCacheGo_length (raw : List RawVerdict) (now : Nat) :
    ∀ (tweets : List Tweet) (i : Nat) (cache : Cache),
      (normalizeAndCacheGo raw now i tweets cache).2.length = tweets.length := by
  intro tweets
  induction tweets with
  | nil => intro i cache; simp [normalizeAndCacheGo]
  | cons hd tl ih => intro i cache; simp [normalizeAndCacheGo, ih]

theorem normalizeAndCacheGo_get (raw : List RawVerdict) (now : Nat) :
    ∀ (tweets : List Tweet) (i : Nat) (cache : Cache) (j : Nat) (t : Tweet),
      tweets.get? j = some t →
      (normalizeAndCacheGo raw now i tweets cache).2.get? j =
        some ⟨t.id,
          (normalizeVerdict (raw.find? (fun v =>
            v.id == some ("tweet_" ++ Nat.repr (i + j))))).verdict,
          (normalizeVerdict (raw.find? (fun v =>
            v.id == some ("tweet_" ++ Nat.repr (i + j))))).reason,
          some (tweetHash t),
          jsOrNull (normalizeVerdict (raw.find? (fun v =>
            v.id == some ("tweet_" ++ Nat.repr (i + j))))).distilled⟩ := by
  intro tweets
  induction tweets with
  | nil => intro i cache j t ht; simp at ht
  | cons hd tl ih =>
    intro i cache j t ht
    cases j with
    | zero =>
      simp only [List.get?_cons_zero, Option.some.injEq] at ht
      subst ht
      simp [normalizeAndCacheGo]
    | succ j' =>
      simp only [List.get?_cons_succ] at ht
      have harith : i + 1 + j' = i + (j' + 1) := by omega
      have := ih (i + 1)
        (setCacheEntry cache (tweetHash hd)
          (normalizeVerdict (raw.find? (fun v =>
            v.id == some ("tweet_" ++ Nat.repr i)))).verdict
          (normalizeVerdict (raw.find? (fun v =>
            v.id == some ("tweet_" ++ Nat.repr i)))).reason
          (normalizeVerdict (raw.find? (fun v =>
            v.id == some ("tweet_" ++ Nat.repr i)))).distilled now)
        j' t ht
      rw [harith] at this
      simpa [normalizeAndCacheGo] using this

theorem find?_append_middle_drop {α : Type} (p : α → Bool) (e : α) (he : p e = false) :
    ∀ (l1 l2 : List α), (l1 ++ e :: l2).find? p = (l1 ++ l2).find? p := by
  intro l1 l2
  induction l1 with
  | nil =>
    simp only [List.nil_append]
    rw [List.find?_cons_of_neg _ (by simp [he])]
  | cons a t ih =>
    simp only [List.cons_append]
    cases hpa : p a with
    | true => rw [List.find?_cons_of_pos _ hpa, List.find?_cons_of_pos _ hpa]
    | false =>
      rw [List.find?_cons_of_neg _ (by simp [hpa]),
        List.find?_cons_of_neg _ (by simp [hpa])]
      exact ih

theorem find?_append_middle_hit {α : Type} (p : α → Bool) (e : α) (he : p e = true) :
    ∀ (l1 l2 : List α), (∀ x ∈ l1, p x = false) →
      (l1 ++ e :: l2).find? p = some e := by
  intro l1 l2
  induction l1 with
  | nil =>
    intro _
    simp only [List.nil_append]
    exact List.find?_cons_of_pos _ he
  | cons a t ih =>
    intro hnone
    have ha := hnone a (by simp)
    simp only [List.cons_append]
    rw [List.find?_cons_of_neg _ (by simp [ha])]
    exact ih (fun x hx => hnone x (by simp [hx]))

theorem normalizeAndCacheGo_ignore (raw1 raw2 : List RawVerdict) (e : RawVerdict)
    (now : Nat) :
    ∀ (tweets : List Tweet) (i : Nat) (cache : Cache),
      (∀ j, j < tweets.length → (e.id == some ("tweet_" ++ Nat.repr (i + j))) = false) →
      normalizeAndCacheGo (raw1 ++ e :: raw2) now i tweets cache =
        normalizeAndCacheGo (raw1 ++ raw2) now i tweets cache := by
  intro tweets
  induction tweets with
  | nil => intro i cache _; rfl
  | cons hd tl ih =>
    intro i cache hmiss
    have h0 : (e.id == some ("tweet_" ++ Nat.repr i)) = false := by
      have := hmiss 0 (by simp)
      simpa using this
    have hfind :
        (raw1 ++ e :: raw2).find? (fun v => v.id == some ("tweet_" ++ Nat.repr i)) =
        (raw1 ++ raw2).find? (fun v => v.id == some ("tweet_" ++ Nat.repr i)) :=
      find?_append_middle_drop _ e h0 raw1 raw2
    have hrest : ∀ j, j < tl.length →
        (e.id == some ("tweet_" ++ Nat.repr (i + 1 + j))) = false := by
      intro j hj
      have harith : i + 1 + j = i + (j + 1) := by omega
      rw [harith]
      exact hmiss (j + 1) (by simpa using Nat.succ_lt_succ hj)
    simp only [normalizeAndCacheGo, hfind]
    rw [ih (i + 1) _ hrest]

/-! ### C1: fail-closed oracle failure -/

/-- C1: if the oracle call fails unrecoverably (transport failure,
non-success status, or malformed body after the retry budget, or a
verdicts field that is not an array), classifyBatch returns exactly one
verdict record per input tweet, each with the fail-closed block (filter)
verdict carrying the failure description, and none with an
allow/nourish/distill (shown) verdict. -/
theorem c1_classifyBatch_fail_closed (tweets : List Tweet) (a1 a2 : AttemptOutcome)
    (cache : Cache) (now : Nat) :
    (∀ e, attemptServerCall a1 a2 = Except.error e →
      (classifyBatch tweets a1 a2 cache now).2.length = tweets.length ∧
      ∀ r ∈ (classifyBatch tweets a1 a2 cache now).2,
        r.verdict = "block" ∧ r.reason = e ∧
        r.verdict ≠ "allow" ∧ r.verdict ≠ "nourish" ∧ r.verdict ≠ "distill") ∧
    (attemptServerCall a1 a2 = Except.ok none →
      (classifyBatch tweets a1 a2 cache now).2.length = tweets.length ∧
      ∀ r ∈ (classifyBatch tweets a1 a2 cache now).2,
        r.verdict = "block" ∧ r.reason = "malformed verdict structure" ∧
        r.verdict ≠ "allow" ∧ r.verdict ≠ "nourish" ∧ r.verdict ≠ "distill") := by
  constructor
  · intro e he
    have hne := attemptServerCall_error_ne_empty a1 a2 e he
    simp only [classifyBatch, he]
    refine ⟨by simp [filterAllVerdicts], ?_⟩
    intro r hr
    obtain ⟨hv, hrs⟩ := mem_filterAllVerdicts tweets e r hr
    rw [if_neg hne] at hrs
    exact ⟨hv, hrs, by rw [hv]; decide, by rw [hv]; decide, by rw [hv]; decide⟩
  · intro he
    simp only [classifyBatch, he]
    refine ⟨by simp [filterAllVerdicts], ?_⟩
    intro r hr
    obtain ⟨hv, hrs⟩ := mem_filterAllVerdicts tweets _ r hr
    rw [if_neg (by decide)] at hrs
    exact ⟨hv, hrs, by rw [hv]; decide, by rw [hv]; decide, by rw [hv]; decide⟩

/-- Witness for C1 at a concrete two-tweet batch whose two server
attempts both hit a transport error. -/
theorem c1_witness :
    (classifyBatch [⟨"t1", "hello", []⟩, ⟨"t2", "world", []⟩]
        AttemptOutcome.netError AttemptOutcome.netError [] 0).2.length = 2 ∧
    ∀ r ∈ (classifyBatch [⟨"t1", "hello", []⟩, ⟨"t2", "world", []⟩]
        AttemptOutcome.netError AttemptOutcome.netError [] 0).2,
      r.verdict = "block" ∧ r.reason = "server request failed" ∧
      r.verdict ≠ "allow" ∧ r.verdict ≠ "nourish" ∧ r.verdict ≠ "distill" :=
  (c1_classifyBatch_fail_closed [⟨"t1", "hello", []⟩, ⟨"t2", "world", []⟩]
    AttemptOutcome.netError AttemptOutcome.netError [] 0).1
    "server request failed" rfl

/-! ### C2: items with no matching oracle output -/

/-- C2 counterexample: in a batch of 5 tweets where the oracle answers
only for positions 0..2, the two unmatched items do not remain
unassigned in the pending state, contrary to the claim: each is assigned
the fail-closed block verdict with reason "no verdict returned — fail
closed", and applying it moves the element to the filtered class, not
the pending class. -/
theorem c2_counterexample :
    ((normalizeAndCacheVerdicts
        [⟨"t0", "a", []⟩, ⟨"t1", "b", []⟩, ⟨"t2", "c", []⟩, ⟨"t3", "d", []⟩, ⟨"t4", "e", []⟩]
        [⟨some "tweet_0", some "show", none, none⟩,
         ⟨some "tweet_1", some "show", none, none⟩,
         ⟨some "tweet_2", some "show", none, none⟩]
        [] 0).2.map (fun r => (r.verdict, r.reason))) =
      [("allow", "approved"), ("allow", "approved"), ("allow", "approved"),
       ("block", "no verdict returned — fail closed"),
       ("block", "no verdict returned — fail closed")] ∧
    Content.applyVerdictClass "block" = "x-shield-filtered" ∧
    ("x-shield-filtered" : String) ≠ "x-shield-pending" :=
  ⟨rfl, rfl, by decide⟩

/-- C2 amended: an item whose position id has no matching entry in the
oracle response is assigned the fail-closed block (filter) verdict with
reason "no verdict returned — fail closed" — still hidden, but moved
from the pending state to the filtered state rather than left without a
verdict. -/
theorem c2_unmatched_gets_block (tweets : List Tweet) (raw : List RawVerdict)
    (cache : Cache) (now : Nat) (j : Nat) (t : Tweet)
    (ht : tweets.get? j = some t)
    (hnone : ∀ v ∈ raw, v.id ≠ some ("tweet_" ++ Nat.repr j)) :
    (normalizeAndCacheVerdicts tweets raw cache now).2.get? j =
      some ⟨t.id, "block", "no verdict returned — fail closed", some (tweetHash t), none⟩ ∧
    (normalizeAndCacheVerdicts tweets raw cache now).2.length = tweets.length ∧
    Content.applyVerdictClass "block" = "x-shield-filtered" := by
  have hfind : raw.find? (fun v => v.id == some ("tweet_" ++ Nat.repr (0 + j))) = none := by
    rw [List.find?_eq_none]
    intro v hv
    rw [Nat.zero_add]
    simp only [beq_iff_eq]
    exact hnone v hv
  have hget := normalizeAndCacheGo_get raw now tweets 0 cache j t ht
  rw [hfind] at hget
  exact ⟨hget, normalizeAndCacheGo_length raw now tweets 0 cache, rfl⟩

/-- Witness for the amended C2 at a concrete 5-item batch with 3
answered positions, looking at unmatched position 3. -/
theorem c2_witness :
    (normalizeAndCacheVerdicts
        [⟨"t0", "a", []⟩, ⟨"t1", "b", []⟩, ⟨"t2", "c", []⟩, ⟨"t3", "d", []⟩, ⟨"t4", "e", []⟩]
        [⟨some "tweet_0", some "show", none, none⟩,
         ⟨some "tweet_1", some "show", none, none⟩,
         ⟨some "tweet_2", some "show", none, none⟩]
        [] 0).2.get? 3 =
      some ⟨"t3", "block", "no verdict returned — fail closed",
        some (tweetHash ⟨"t3", "d", []⟩), none⟩ ∧
    (normalizeAndCacheVerdicts
        [⟨"t0", "a", []⟩, ⟨"t1", "b", []⟩, ⟨"t2", "c", []⟩, ⟨"t3", "d", []⟩, ⟨"t4", "e", []⟩]
        [⟨some "tweet_0", some "show", none, none⟩,
         ⟨some "tweet_1", some "show", none, none⟩,
         ⟨some "tweet_2", some "show", none, none⟩]
        [] 0).2.length = 5 ∧
    Content.applyVerdictClass "block" = "x-shield-filtered" :=
  c2_unmatched_gets_block
    [⟨"t0", "a", []⟩, ⟨"t1", "b", []⟩, ⟨"t2", "c", []⟩, ⟨"t3", "d", []⟩, ⟨"t4", "e", []⟩]
    [⟨some "tweet_0", some "show", none, none⟩,
     ⟨some "tweet_1", some "show", none, none⟩,
     ⟨some "tweet_2", some "show", none, none⟩]
    [] 0 3 ⟨"t3", "d", []⟩ rfl (by decide)

/-! ### C8: duplicate and unknown position ids -/

/-- C8 counterexample: for duplicate entries with the same position id,
the code takes the FIRST matching entry (Array.prototype.find), not the
last: with entries show-then-filter for tweet_0 the item gets allow,
where the last-one-wins claim predicts block. -/
theorem c8_counterexample :
    ((normalizeAndCacheVerdicts [⟨"t0", "hello", []⟩]
        [⟨some "tweet_0", some "show", none, none⟩,
         ⟨some "tweet_0", some "filter", none, none⟩]
        [] 0).2.map (fun r => r.verdict)) = ["allow"] ∧
    ("allow" : String) ≠ "block" :=
  ⟨rfl, by decide⟩

/-- C8 amended: entries for unknown or missing position ids are ignored
(removing such an entry changes nothing), and among duplicate entries
for the same position id the FIRST one wins. -/
theorem c8_first_wins_and_unknown_ignored :
    (∀ (tweets : List Tweet) (raw1 raw2 : List RawVerdict) (e : RawVerdict)
        (cache : Cache) (now j : Nat) (t : Tweet),
      tweets.get? j = some t →
      e.id = some ("tweet_" ++ Nat.repr j) →
      (∀ v ∈ raw1, v.id ≠ some ("tweet_" ++ Nat.repr j)) →
      (normalizeAndCacheVerdicts tweets (raw1 ++ e :: raw2) cache now).2.get? j =
        some ⟨t.id, (normalizeVerdict (some e)).verdict,
          (normalizeVerdict (some e)).reason, some (tweetHash t),
          jsOrNull (normalizeVerdict (some e)).distilled⟩) ∧
    (∀ (tweets : List Tweet) (raw1 raw2 : List RawVerdict) (e : RawVerdict)
        (cache : Cache) (now : Nat),
      (∀ j, j < tweets.length → e.id ≠ some ("tweet_" ++ Nat.repr j)) →
      normalizeAndCacheVerdicts tweets (raw1 ++ e :: raw2) cache now =
        normalizeAndCacheVerdicts tweets (raw1 ++ raw2) cache now) := by
  constructor
  · intro tweets raw1 raw2 e cache now j t ht he hfirst
    have hpe : (fun v => v.id == some ("tweet_" ++ Nat.repr (0 + j))) e = true := by
      rw [Nat.zero_add]
      simp only [beq_iff_eq]
      exact he
    have hnone : ∀ x ∈ raw1,
        (fun v => v.id == some ("tweet_" ++ Nat.repr (0 + j))) x = false := by
      intro x hx
      rw [Nat.zero_add]
      simp only [beq_eq_false_iff_ne, ne_eq]
      exact hfirst x hx
    have hfind := find?_append_middle_hit _ e hpe raw1 raw2 hnone
    have hget := normalizeAndCacheGo_get (raw1 ++ e :: raw2) now tweets 0 cache j t ht
    rw [hfind] at hget
    exact hget
  · intro tweets raw1 raw2 e cache now hunk
    apply normalizeAndCacheGo_ignore
    intro j hj
    rw [Nat.zero_add]
    simp only [beq_eq_false_iff_ne, ne_eq]
    exact hunk j hj

/-- Witness for the amended C8: an unmatched entry first, then the
winning show entry, then a duplicate filter entry that is ignored. -/
theorem c8_witness :
    (normalizeAndCacheVerdicts [⟨"t0", "hello", []⟩]
        ([⟨some "tweet_9", some "nourish", none, none⟩] ++
          ⟨some "tweet_0", some "show", none, none⟩ ::
            [⟨some "tweet_0", some "filter", none, none⟩])
        [] 0).2.get? 0 =
      some ⟨"t0", "allow", "approved", some (tweetHash ⟨"t0", "hello", []⟩), none⟩ :=
  c8_first_wins_and_unknown_ignored.1 [⟨"t0", "hello", []⟩]
    [⟨some "tweet_9", some "nourish", none, none⟩]
    [⟨some "tweet_0", some "filter", none, none⟩]
    ⟨some "tweet_0", some "show", none, none⟩
    [] 0 0 ⟨"t0", "hello", []⟩ rfl rfl (by decide)

/-! ### Helper lemmas about setCacheEntry eviction -/

theorem setCacheEntry_eq (cache : Cache) (hash verdict reason : String)
    (distilled : Option String) (now : Nat) :
    setCacheEntry cache hash verdict reason distilled now =
      assocSet (if CACHE_MAX_ENTRIES ≤ cache.length then evictKept cache else cache)
        hash ⟨verdict, reason, jsOrNull distilled, now⟩ := rfl

theorem assocSet_length_le (l : Cache) (key : String) (v : CacheEntry) :
    (assocSet l key v).length ≤ l.length + 1 := by
  unfold assocSet
  split
  · simp
  · simp

theorem assocSet_append_of_fresh (l : Cache) (key : String) (v : CacheEntry)
    (h : ∀ p ∈ l, p.1 ≠ key) : assocSet l key v = l ++ [(key, v)] := by
  have hany : l.any (fun p => p.1 = key) = false := by
    rw [List.any_eq_false]
    intro p hp
    simpa using h p hp
  simp [assocSet, hany]

theorem evict_take_drop_keys (cache : Cache) (hnd : (cache.map Prod.fst).Nodup) :
    (∀ p ∈ (evictSorted cache).take (evictCount cache), p.1 ∈ evictKeys cache) ∧
    (∀ p ∈ (evictSorted cache).drop (evictCount cache), p.1 ∉ evictKeys cache) := by
  have hperm : List.Perm (evictSorted cache) cache := List.perm_insertionSort tsLE cache
  have hkeys : ((evictSorted cache).map Prod.fst).Nodup :=
    ((hperm.map Prod.fst).nodup_iff).mpr hnd
  have hsplit := List.take_append_drop (evictCount cache) (evictSorted cache)
  have hkeys2 : (((evictSorted cache).take (evictCount cache)).map Prod.fst ++
      ((evictSorted cache).drop (evictCount cache)).map Prod.fst).Nodup := by
    rw [← List.map_append, hsplit]
    exact hkeys
  have hdisj := (List.nodup_append.mp hkeys2).2.2
  constructor
  · intro p hp
    exact List.mem_map_of_mem Prod.fst hp
  · intro p hp hc
    exact hdisj hc (List.mem_map_of_mem Prod.fst hp)

theorem evictKept_perm (cache : Cache) (hnd : (cache.map Prod.fst).Nodup) :
    List.Perm (evictKept cache) ((evictSorted cache).drop (evictCount cache)) := by
  have hperm : List.Perm (evictSorted cache) cache := List.perm_insertionSort tsLE cache
  have hsplit := List.take_append_drop (evictCount cache) (evictSorted cache)
  obtain ⟨htk, hdk⟩ := evict_take_drop_keys cache hnd
  have htake : ((evictSorted cache).take (evictCount cache)).filter
      (fun p => !((evictKeys cache).contains p.1)) = [] := by
    rw [List.filter_eq_nil_iff]
    intro p hp
    simp [htk p hp]
  have hdrop : ((evictSorted cache).drop (evictCount cache)).filter
      (fun p => !((evictKeys cache).contains p.1)) =
      (evictSorted cache).drop (evictCount cache) := by
    rw [List.filter_eq_self]
    intro p hp
    simp [hdk p hp]
  have h1 : List.Perm (evictKept cache)
      ((evictSorted cache).filter (fun p => !((evictKeys cache).contains p.1))) :=
    List.Perm.filter _ hperm.symm
  have h2 : (evictSorted cache).filter (fun p => !((evictKeys cache).contains p.1)) =
      (evictSorted cache).drop (evictCount cache) := by
    conv_lhs => rw [← hsplit]
    rw [List.filter_append, htake, hdrop, List.nil_append]
  exact h2 ▸ h1

theorem evictKept_length (cache : Cache) (hnd : (cache.map Prod.fst).Nodup) :
    (evictKept cache).length = cache.length - evictCount cache := by
  rw [(evictKept_perm cache hnd).length_eq, List.length_drop]
  have hlen : (evictSorted cache).length = cache.length :=
    (List.perm_insertionSort tsLE cache).length_eq
  rw [hlen]

theorem mem_of_key_mem_sub (cache sub : Cache) (hnd : (cache.map Prod.fst).Nodup)
    (hsub : ∀ p ∈ sub, p ∈ cache) (q : String × CacheEntry) (hq : q ∈ cache)
    (hk : q.1 ∈ sub.map Prod.fst) : q ∈ sub := by
  obtain ⟨p, hp, hpk⟩ := List.mem_map.mp hk
  have hpq : p = q := List.inj_on_of_nodup_map hnd (hsub p hp) hq hpk
  rwa [← hpq]

/-! ### C5: cache capacity and LRU eviction -/

/-- C5: every put leaves the cache with at most CACHE_MAX_ENTRIES = 500
entries; and when an insertion of a fresh key happens at or above
capacity, the output has exactly 500 entries, exactly
count - 500 + 1 input entries disappear, and every evicted entry's
timestamp is at most every surviving entry's timestamp (the oldest
entries are evicted). -/
theorem c5_cache_capacity_and_lru_eviction (cache : Cache)
    (hash verdict reason : String) (distilled : Option String) (now : Nat)
    (hnd : (cache.map Prod.fst).Nodup)
    (hcap : CACHE_MAX_ENTRIES ≤ cache.length)
    (hfresh : hash ∉ cache.map Prod.fst) :
    (∀ c2 : Cache, (c2.map Prod.fst).Nodup →
      (setCacheEntry c2 hash verdict reason distilled now).length ≤ CACHE_MAX_ENTRIES) ∧
    (setCacheEntry cache hash verdict reason distilled now).length = CACHE_MAX_ENTRIES ∧
    (cache.filter (fun p =>
      !(((setCacheEntry cache hash verdict reason distilled now).map Prod.fst).contains
        p.1))).length = cache.length - CACHE_MAX_ENTRIES + 1 ∧
    ∀ p ∈ cache.filter (fun p =>
      !(((setCacheEntry cache hash verdict reason distilled now).map Prod.fst).contains
        p.1)),
      ∀ q ∈ cache,
        q.1 ∈ (setCacheEntry cache hash verdict reason distilled now).map Prod.fst →
        p.2.timestamp ≤ q.2.timestamp := by
  have h500 : CACHE_MAX_ENTRIES = 500 := rfl
  have hkeptsub : ∀ p ∈ evictKept cache, p ∈ cache :=
    fun p hp => List.mem_of_mem_filter hp
  have hfreshkept : ∀ p ∈ evictKept cache, p.1 ≠ hash :=
    fun p hp hc => hfresh (hc ▸ List.mem_map_of_mem Prod.fst (hkeptsub p hp))
  have hout : setCacheEntry cache hash verdict reason distilled now =
      evictKept cache ++ [(hash, ⟨verdict, reason, jsOrNull distilled, now⟩)] := by
    rw [setCacheEntry_eq, if_pos hcap]
    exact assocSet_append_of_fresh _ _ _ hfreshkept
  have houtkeys : (setCacheEntry cache hash verdict reason distilled now).map Prod.fst =
      (evictKept cache).map Prod.fst ++ [hash] := by
    rw [hout, List.map_append]
    rfl
  have hkl := evictKept_length cache hnd
  have hcount : evictCount cache = cache.length - CACHE_MAX_ENTRIES + 1 := rfl
  refine ⟨?_, ?_, ?_, ?_⟩
  · -- every put stays within capacity
    intro c2 h2
    rw [setCacheEntry_eq]
    by_cases hc : CACHE_MAX_ENTRIES ≤ c2.length
    · rw [if_pos hc]
      have hle := assocSet_length_le (evictKept c2) hash ⟨verdict, reason, jsOrNull distilled, now⟩
      have hl2 := evictKept_length c2 h2
      have hc2 : evictCount c2 = c2.length - CACHE_MAX_ENTRIES + 1 := rfl
      rw [hc2] at hl2
      rw [h500] at hc hl2 ⊢
      omega
    · rw [if_neg hc]
      have hle := assocSet_length_le c2 hash ⟨verdict, reason, jsOrNull distilled, now⟩
      rw [h500] at hc ⊢
      omega
  · -- exactly at capacity after a fresh over-capacity insertion
    rw [hout, List.length_append, hkl, hcount]
    rw [h500] at hcap ⊢
    simp only [List.length_cons, List.length_nil]
    omega
  · -- exactly count - capacity + 1 entries are evicted
    have hpred : ∀ p ∈ cache,
        (!(((setCacheEntry cache hash verdict reason distilled now).map Prod.fst).contains
          p.1)) = ((evictKeys cache).contains p.1) := by
      intro p hp
      rw [houtkeys]
      by_cases hin : p.1 ∈ evictKeys cache
      · have h1 : p.1 ∉ (evictKept cache).map Prod.fst := by
          intro hc
          obtain ⟨q, hq, hqk⟩ := List.mem_map.mp hc
          have hqP : q.1 ∉ evictKeys cache := by
            have := (List.mem_filter.mp hq).2
            simpa using this
          rw [hqk] at hqP
          exact hqP hin
        have h2 : p.1 ≠ hash :=
          fun hc => hfresh (hc ▸ List.mem_map_of_mem Prod.fst hp)
        have lhs : ((evictKept cache).map Prod.fst ++ [hash]).contains p.1 = false := by
          simp [List.mem_append, h1, h2]
        have rhs : (evictKeys cache).contains p.1 = true := by simp [hin]
        rw [lhs, rhs]
        rfl
      · have hpkept : p ∈ evictKept cache :=
          List.mem_filter.mpr ⟨hp, by simp [hin]⟩
        have h1 : p.1 ∈ (evictKept cache).map Prod.fst :=
          List.mem_map_of_mem _ hpkept
        have lhs : ((evictKept cache).map Prod.fst ++ [hash]).contains p.1 = true := by
          simp [List.mem_append, h1]
        have rhs : (evictKeys cache).contains p.1 = false := by simp [hin]
        rw [lhs, rhs]
        rfl
    have hremeq : cache.filter (fun p =>
        !(((setCacheEntry cache hash verdict reason distilled now).map Prod.fst).contains
          p.1)) = cache.filter (fun p => (evictKeys cache).contains p.1) :=
      List.filter_congr hpred
    have hperm : List.Perm (evictSorted cache) cache := List.perm_insertionSort tsLE cache
    obtain ⟨htk, hdk⟩ := evict_take_drop_keys cache hnd
    have htake : ((evictSorted cache).take (evictCount cache)).filter
        (fun p => (evictKeys cache).contains p.1) =
        (evictSorted cache).take (evictCount cache) := by
      rw [List.filter_eq_self]
      intro p hp
      simp [htk p hp]
    have hdrop : ((evictSorted cache).drop (evictCount cache)).filter
        (fun p => (evictKeys cache).contains p.1) = [] := by
      rw [List.filter_eq_nil_iff]
      intro p hp
      simp [hdk p hp]
    have hremperm : List.Perm (cache.filter (fun p => (evictKeys cache).contains p.1))
        ((evictSorted cache).take (evictCount cache)) := by
      have h1 : List.Perm (cache.filter (fun p => (evictKeys cache).contains p.1))
          ((evictSorted cache).filter (fun p => (evictKeys cache).contains p.1)) :=
        List.Perm.filter _ hperm.symm
      have h2 : (evictSorted cache).filter (fun p => (evictKeys cache).contains p.1) =
          (evictSorted cache).take (evictCount cache) := by
        conv_lhs => rw [← List.take_append_drop (evictCount cache) (evictSorted cache)]
        rw [List.filter_append, htake, hdrop, List.append_nil]
      exact h2 ▸ h1
    rw [hremeq, hremperm.length_eq, List.length_take, hperm.length_eq, hcount, h500]
    have hc5 : 500 ≤ cache.length := h500 ▸ hcap
    rw [Nat.min_eq_left (by omega)]
  · -- evicted entries all have timestamps at most every survivor's
    intro p hp q hq hqk
    have hperm : List.Perm (evictSorted cache) cache := List.perm_insertionSort tsLE cache
    have hpm := List.mem_filter.mp hp
    have hpk : p.1 ∈ evictKeys cache := by
      have := hpm.2
      rw [houtkeys] at this
      by_contra hnot
      have hpkept : p ∈ evictKept cache :=
        List.mem_filter.mpr ⟨hpm.1, by simp [hnot]⟩
      have h1 : p.1 ∈ (evictKept cache).map Prod.fst :=
        List.mem_map_of_mem _ hpkept
      simp [List.mem_append, h1] at this
    obtain ⟨p', hp't, hp'k⟩ := List.mem_map.mp hpk
    have hp'c : p' ∈ cache := hperm.mem_iff.mp (List.mem_of_mem_take hp't)
    have hpq : p' = p := List.inj_on_of_nodup_map hnd hp'c hpm.1 hp'k
    rw [← hpq]
    have hqh : q.1 ≠ hash :=
      fun hc => hfresh (hc ▸ List.mem_map_of_mem Prod.fst hq)
    have hqkept : q.1 ∈ (evictKept cache).map Prod.fst := by
      rw [houtkeys] at hqk
      rcases List.mem_append.mp hqk with h | h
      · exact h
      · simp at h
        exact absurd h hqh
    have hq' : q ∈ evictKept cache :=
      mem_of_key_mem_sub cache (evictKept cache) hnd
        (fun r hr => List.mem_of_mem_filter hr) q hq hqkept
    have hqdrop : q ∈ (evictSorted cache).drop (evictCount cache) :=
      ((evictKept_perm cache hnd).mem_iff).mp hq'
    have hsorted : List.Pairwise tsLE (evictSorted cache) :=
      List.sorted_insertionSort tsLE cache
    rw [← List.take_append_drop (evictCount cache) (evictSorted cache)] at hsorted
    exact (List.pairwise_append.mp hsorted).2.2 p' hp't q hqdrop

/-- Witness for C5 at the concrete 500-entry cache: inserting a fresh
key keeps the cache at exactly 500 entries and evicts exactly one
entry. -/
theorem c5_witness :
    (setCacheEntry fullCacheExample "h" "allow" "ok" none 1000).length =
      CACHE_MAX_ENTRIES ∧
    (fullCacheExample.filter (fun p =>
      !(((setCacheEntry fullCacheExample "h" "allow" "ok" none 1000).map
        Prod.fst).contains p.1))).length =
      fullCacheExample.length - CACHE_MAX_ENTRIES + 1 :=
  have hinj : Function.Injective (fun i => String.mk (List.replicate i 'a')) := by
    intro a b hab
    have h2 : List.replicate a 'a' = List.replicate b 'a' := congrArg String.data hab
    have h3 := congrArg List.length h2
    simpa using h3
  have hnd : (fullCacheExample.map Prod.fst).Nodup := by
    unfold fullCacheExample
    rw [List.map_map]
    exact List.Nodup.map hinj (List.nodup_range 500)
  have hcap : CACHE_MAX_ENTRIES ≤ fullCacheExample.length := by
    unfold fullCacheExample
    rw [List.length_map, List.length_range]
    exact Nat.le_refl 500
  have hfresh : "h" ∉ fullCacheExample.map Prod.fst := by
    unfold fullCacheExample
    rw [List.map_map]
    intro hc
    obtain ⟨i, hi, hik⟩ := List.mem_map.mp hc
    have h2 : List.replicate i 'a' = ['h'] := congrArg String.data hik
    have hlen := congrArg List.length h2
    simp only [List.length_replicate, List.length_cons, List.length_nil] at hlen
    subst hlen
    exact absurd h2 (by decide)
  ⟨(c5_cache_capacity_and_lru_eviction fullCacheExample "h" "allow" "ok" none 1000
      hnd hcap hfresh).2.1,
    (c5_cache_capacity_and_lru_eviction fullCacheExample "h" "allow" "ok" none 1000
      hnd hcap hfresh).2.2.1⟩

/-! ### C6: thread-context override -/

/-- C6: in thread view, a block (filter) verdict for an item authored by
the anchor author is upgraded to allow (shown, approved class); the
upgrade is never applied to an item by a different author, never to a
non-block verdict (nourish, distill, allow), and never outside thread
view. -/
theorem c6_thread_context_override (threadAuthor tweetAuthor : Option String)
    (verdict : String) :
    (jsTruthy threadAuthor = true → tweetAuthor = threadAuthor →
      Content.threadOverrideVerdict true threadAuthor tweetAuthor "block" = "allow" ∧
      Content.applyVerdictClass
        (Content.threadOverrideVerdict true threadAuthor tweetAuthor "block") =
        "x-shield-approved") ∧
    (∀ onThread : Bool, tweetAuthor ≠ threadAuthor →
      Content.threadOverrideVerdict onThread threadAuthor tweetAuthor verdict = verdict) ∧
    (∀ onThread : Bool, verdict ≠ "block" →
      Content.threadOverrideVerdict onThread threadAuthor tweetAuthor verdict = verdict) ∧
    (Content.threadOverrideVerdict false threadAuthor tweetAuthor verdict = verdict) := by
  refine ⟨?_, ?_, ?_, ?_⟩
  · intro htr hsame
    have : Content.threadOverrideVerdict true threadAuthor tweetAuthor "block" = "allow" := by
      simp [Content.threadOverrideVerdict, htr, hsame]
    exact ⟨this, by rw [this]; rfl⟩
  · intro onThread hdiff
    simp [Content.threadOverrideVerdict, hdiff]
  · intro onThread hnb
    have : (verdict == "block") = false := by
      simp only [beq_eq_false_iff_ne, ne_eq]
      exact hnb
    simp [Content.threadOverrideVerdict, this]
  · simp [Content.threadOverrideVerdict]

/-- Witness for C6: anchor author alice; her blocked item is upgraded,
bob's is not, a distill verdict is untouched, and nothing happens off
the thread page. -/
theorem c6_witness :
    (Content.threadOverrideVerdict true (some "alice") (some "alice") "block" = "allow" ∧
      Content.applyVerdictClass
        (Content.threadOverrideVerdict true (some "alice") (some "alice") "block") =
        "x-shield-approved") ∧
    Content.threadOverrideVerdict true (some "alice") (some "bob") "block" = "block" ∧
    Content.threadOverrideVerdict true (some "alice") (some "alice") "distill" = "distill" ∧
    Content.threadOverrideVerdict false (some "alice") (some "alice") "block" = "block" :=
  ⟨(c6_thread_context_override (some "alice") (some "alice") "block").1 (by decide) rfl,
    (c6_thread_context_override (some "alice") (some "bob") "block").2.1 true (by decide),
    (c6_thread_context_override (some "alice") (some "alice") "distill").2.2.1 true (by decide),
    (c6_thread_context_override (some "alice") (some "alice") "block").2.2.2⟩

/-! ### C3: quota lockout after six ticks -/

/-- C3: with limitSeconds = 60 and the fixed 10-second tick, starting
from a fresh unlocked zero-usage state for the current day, the state
after k ticks has usedSeconds = min(10k, 60) and is locked exactly when
k is at least 6 (so precisely the 6th tick flips locked from false to
true), and once at least 6 ticks have happened every further tick
responds with remaining 0 and locked true while changing nothing. -/
theorem c3_quota_lockout_at_six_ticks :
    ∀ k : Nat,
      iterateHeartbeat
          ⟨some ⟨"2025-06-01", 0⟩, none, some ⟨some 60, none, none⟩, none, [], some false⟩
          "2025-06-01" k =
        ⟨some ⟨"2025-06-01", min (10 * k) 60⟩, none, some ⟨some 60, none, none⟩, none, [],
          some (decide (6 ≤ k))⟩ ∧
      (6 ≤ k →
        (heartbeatStep
            (iterateHeartbeat
              ⟨some ⟨"2025-06-01", 0⟩, none, some ⟨some 60, none, none⟩, none, [], some false⟩
              "2025-06-01" k)
            "2025-06-01").2 = ⟨0, true⟩ ∧
        (heartbeatStep
            (iterateHeartbeat
              ⟨some ⟨"2025-06-01", 0⟩, none, some ⟨some 60, none, none⟩, none, [], some false⟩
              "2025-06-01" k)
            "2025-06-01").1 =
          iterateHeartbeat
            ⟨some ⟨"2025-06-01", 0⟩, none, some ⟨some 60, none, none⟩, none, [], some false⟩
            "2025-06-01" k) := by
  have key : ∀ n : Nat,
      iterateHeartbeat
          ⟨some ⟨"2025-06-01", 0⟩, none, some ⟨some 60, none, none⟩, none, [], some false⟩
          "2025-06-01" n =
        ⟨some ⟨"2025-06-01", min (10 * n) 60⟩, none, some ⟨some 60, none, none⟩, none, [],
          some (decide (6 ≤ n))⟩ := by
    intro n
    induction n with
    | zero => decide
    | succ m ih =>
      rw [iterateHeartbeat, ih]
      by_cases h6 : 6 ≤ m
      · have hd6 : decide (6 ≤ m) = true := decide_eq_true h6
        have hd7 : decide (6 ≤ m + 1) = true := decide_eq_true (by omega)
        have hmin : min (10 * m) 60 = 60 := by omega
        have hmin2 : min (10 * (m + 1)) 60 = 60 := by omega
        rw [hd6, hd7, hmin, hmin2]
        simp [heartbeatStep, getDailyUsage]
      · have hd6 : decide (6 ≤ m) = false := decide_eq_false h6
        have hmin : min (10 * m) 60 = 10 * m := by omega
        rw [hd6, hmin]
        by_cases h5 : 5 ≤ m
        · have hm : m = 5 := by omega
          subst hm
          decide
        · have hd7 : decide (6 ≤ m + 1) = false := decide_eq_false (by omega)
          have hmin2 : min (10 * (m + 1)) 60 = 10 * m + 10 := by omega
          rw [hd7, hmin2]
          simp only [heartbeatStep, getDailyUsage, getTimeLimit]
          have hcond : ¬(60 ≤ 10 * m + 10) := by omega
          simp [hcond]
  intro k
  refine ⟨key k, fun h6 => ?_⟩
  rw [key k]
  have hd6 : decide (6 ≤ k) = true := decide_eq_true h6
  rw [hd6]
  constructor
  · simp [heartbeatStep, getDailyUsage]
  · simp [heartbeatStep, getDailyUsage]

/-- Witness for C3 at k = 6: after six ticks the state is locked with
usedSeconds 60, and the 7th tick answers remaining 0 / locked true
without changing the state. -/
theorem c3_witness :
    iterateHeartbeat
        ⟨some ⟨"2025-06-01", 0⟩, none, some ⟨some 60, none, none⟩, none, [], some false⟩
        "2025-06-01" 6 =
      ⟨some ⟨"2025-06-01", min (10 * 6) 60⟩, none, some ⟨some 60, none, none⟩, none, [],
        some (decide (6 ≤ 6))⟩ ∧
    (heartbeatStep
        (iterateHeartbeat
          ⟨some ⟨"2025-06-01", 0⟩, none, some ⟨some 60, none, none⟩, none, [], some false⟩
          "2025-06-01" 6)
        "2025-06-01").2 = ⟨0, true⟩ ∧
    (heartbeatStep
        (iterateHeartbeat
          ⟨some ⟨"2025-06-01", 0⟩, none, some ⟨some 60, none, none⟩, none, [], some false⟩
          "2025-06-01" 6)
        "2025-06-01").1 =
      iterateHeartbeat
        ⟨some ⟨"2025-06-01", 0⟩, none, some ⟨some 60, none, none⟩, none, [], some false⟩
        "2025-06-01" 6 :=
  ⟨(c3_quota_lockout_at_six_ticks 6).1,
    ((c3_quota_lockout_at_six_ticks 6).2 (by decide)).1,
    ((c3_quota_lockout_at_six_ticks 6).2 (by decide)).2⟩

/-! ### Helper lemmas: which operations touch the locked flag -/

theorem getDailyUsage_locked (st : Store) (today : String) :
    (getDailyUsage st today).1.locked = st.locked := by
  cases h : st.dailyUsage with
  | none => simp [getDailyUsage, h]
  | some u =>
    simp only [getDailyUsage, h]
    split <;> rfl

theorem getDailyStats_locked (st : Store) (today : String) :
    (getDailyStats st today).1.locked = st.locked := by
  cases h : st.dailyStats with
  | none => simp [getDailyStats, h]
  | some s =>
    simp only [getDailyStats, h]
    split <;> rfl

theorem updateDailyStats_locked (st : Store) (today : String)
    (a b c d : Nat) : (updateDailyStats st today a b c d).locked = st.locked := by
  simp only [updateDailyStats]
  exact getDailyStats_locked st today

theorem heartbeatStep_keeps_locked (st : Store) (today : String)
    (h : st.locked = some true) : (heartbeatStep st today).1.locked = some true := by
  have h1 : (getDailyUsage st today).1.locked = some true := by
    rw [getDailyUsage_locked]; exact h
  simp [heartbeatStep, h1]

theorem handleMessage_keeps_locked (env : Env) (msg : Msg) (st : Store)
    (h : st.locked = some true) : (handleMessage env msg st).1.locked = some true := by
  cases msg with
  | checkLockout => exact h
  | checkApiKey =>
    simp only [handleMessage]
    split <;> exact h
  | heartbeat => exact heartbeatStep_keeps_locked st env.today h
  | classifyBatchMsg tweets =>
    simp only [handleMessage]
    split
    · exact h
    · rw [updateDailyStats_locked]
      exact h
  | getStats =>
    simp only [handleMessage]
    rw [getDailyUsage_locked, getDailyStats_locked]
    exact h
  | resetStats => exact h
  | setApiKey key => exact h
  | setMode m => exact h
  | unknown => exact h

/-! ### C4: daily rollover and monotonicity of the locked flag -/

/-- C4 counterexample: with a stored quota date of the previous day and
locked = true, the date-difference rollover (getDailyUsage, as run by
the heartbeat) resets usedSeconds to 0 but does NOT reset locked to
false — the heartbeat still answers locked true — contradicting the
claim that the date-difference rollover resets both. -/
theorem c4_counterexample :
    (getDailyUsage
        ⟨some ⟨"2025-06-01", 900⟩, none, some ⟨some 60, none, none⟩, none, [], some true⟩
        "2025-06-02").2 = ⟨"2025-06-02", 0⟩ ∧
    (getDailyUsage
        ⟨some ⟨"2025-06-01", 900⟩, none, some ⟨some 60, none, none⟩, none, [], some true⟩
        "2025-06-02").1.locked = some true ∧
    (heartbeatStep
        ⟨some ⟨"2025-06-01", 900⟩, none, some ⟨some 60, none, none⟩, none, [], some true⟩
        "2025-06-02").1 =
      ⟨some ⟨"2025-06-02", 0⟩, none, some ⟨some 60, none, none⟩, none, [], some true⟩ ∧
    (heartbeatStep
        ⟨some ⟨"2025-06-01", 900⟩, none, some ⟨some 60, none, none⟩, none, [], some true⟩
        "2025-06-02").2 = ⟨0, true⟩ := by
  decide

/-- C4 amended: the date-difference rollover resets usedSeconds to 0 but
leaves the locked flag untouched; locked is cleared (together with a
usage reset) only by the midnight dailyReset alarm; and locked = true is
monotonic under every message-handler operation — no message, from any
sender, ever clears it. -/
theorem c4_rollover_and_locked_monotonic :
    (∀ (st : Store) (today : String) (u : Usage),
      st.dailyUsage = some u → u.date ≠ today →
      (getDailyUsage st today).2 = ⟨today, 0⟩ ∧
      (getDailyUsage st today).1.dailyUsage = some ⟨today, 0⟩ ∧
      (getDailyUsage st today).1.locked = st.locked) ∧
    (∀ (st : Store) (today : String),
      st.locked = some true → (heartbeatStep st today).1.locked = some true) ∧
    (∀ (extId senderId : String) (env : Env) (msg : Option Msg) (st : Store),
      st.locked = some true → (onMessage extId senderId env msg st).1.locked = some true) ∧
    (∀ (st : Store) (today : String) (now : Nat),
      (dailyResetAlarm st today now).locked = some false ∧
      (dailyResetAlarm st today now).dailyUsage = some ⟨today, 0⟩) := by
  refine ⟨?_, heartbeatStep_keeps_locked, ?_, fun st today now => ⟨rfl, rfl⟩⟩
  · intro st today u hu hdate
    simp only [getDailyUsage, hu]
    rw [if_neg hdate]
    exact ⟨rfl, rfl, rfl⟩
  · intro extId senderId env msg st h
    cases msg with
    | none => exact h
    | some m =>
      simp only [onMessage]
      split
      · exact h
      · exact handleMessage_keeps_locked env m st h

/-- Witness for the amended C4 at a concrete locked store whose stored
date is the previous day. -/
theorem c4_witness :
    ((getDailyUsage
        ⟨some ⟨"2025-06-01", 900⟩, none, some ⟨some 60, none, none⟩, none, [], some true⟩
        "2025-06-02").2 = ⟨"2025-06-02", 0⟩ ∧
      (getDailyUsage
        ⟨some ⟨"2025-06-01", 900⟩, none, some ⟨some 60, none, none⟩, none, [], some true⟩
        "2025-06-02").1.dailyUsage = some ⟨"2025-06-02", 0⟩ ∧
      (getDailyUsage
        ⟨some ⟨"2025-06-01", 900⟩, none, some ⟨some 60, none, none⟩, none, [], some true⟩
        "2025-06-02").1.locked = some true) ∧
    (heartbeatStep
        ⟨some ⟨"2025-06-01", 900⟩, none, some ⟨some 60, none, none⟩, none, [], some true⟩
        "2025-06-02").1.locked = some true ∧
    (onMessage "ext-id" "ext-id"
        ⟨"2025-06-02", 0, AttemptOutcome.netError, AttemptOutcome.netError,
          APIAttempt.netError, APIAttempt.netError, true⟩
        (some Msg.resetStats)
        ⟨some ⟨"2025-06-01", 900⟩, none, some ⟨some 60, none, none⟩, none, [],
          some true⟩).1.locked = some true ∧
    ((dailyResetAlarm
        ⟨some ⟨"2025-06-01", 900⟩, none, some ⟨some 60, none, none⟩, none, [], some true⟩
        "2025-06-02" 0).locked = some false ∧
      (dailyResetAlarm
        ⟨some ⟨"2025-06-01", 900⟩, none, some ⟨some 60, none, none⟩, none, [], some true⟩
        "2025-06-02" 0).dailyUsage = some ⟨"2025-06-02", 0⟩) :=
  ⟨c4_rollover_and_locked_monotonic.1
      ⟨some ⟨"2025-06-01", 900⟩, none, some ⟨some 60, none, none⟩, none, [], some true⟩
      "2025-06-02" ⟨"2025-06-01", 900⟩ rfl (by decide),
    c4_rollover_and_locked_monotonic.2.1
      ⟨some ⟨"2025-06-01", 900⟩, none, some ⟨some 60, none, none⟩, none, [], some true⟩
      "2025-06-02" rfl,
    c4_rollover_and_locked_monotonic.2.2.1 "ext-id" "ext-id"
      ⟨"2025-06-02", 0, AttemptOutcome.netError, AttemptOutcome.netError,
        APIAttempt.netError, APIAttempt.netError, true⟩
      (some Msg.resetStats)
      ⟨some ⟨"2025-06-01", 900⟩, none, some ⟨some 60, none, none⟩, none, [], some true⟩
      rfl,
    c4_rollover_and_locked_monotonic.2.2.2
      ⟨some ⟨"2025-06-01", 900⟩, none, some ⟨some 60, none, none⟩, none, [], some true⟩
      "2025-06-02" 0⟩

/-! ### Helper lemmas about the reorder move loop -/

theorem insertBeforeIn_eq (x rr : String) :
    ∀ (pre post : List String), rr ∉ pre →
      Content.insertBeforeIn (pre ++ rr :: post) x rr = pre ++ x :: rr :: post := by
  intro pre
  induction pre with
  | nil =>
    intro post _
    simp [Content.insertBeforeIn]
  | cons a t ih =>
    intro post hpre
    have ha : a ≠ rr := fun h => hpre (by simp [h])
    simp only [List.cons_append, Content.insertBeforeIn, if_neg ha, List.append_eq]
    rw [ih post (fun hc => hpre (by simp [hc]))]

theorem insertBeforeIn_perm (x rr : String) :
    ∀ m : List String, List.Perm (Content.insertBeforeIn m x rr) (x :: m) := by
  intro m
  induction m with
  | nil => exact List.Perm.refl _
  | cons a t ih =>
    simp only [Content.insertBeforeIn]
    split
    · exact List.Perm.refl _
    · exact (ih.cons a).trans (List.Perm.swap x a t)

theorem nextSibling_spec (x : String) :
    ∀ (pre post : List String), x ∉ pre →
      Content.nextSibling (pre ++ x :: post) x = post.head? := by
  intro pre
  induction pre with
  | nil =>
    intro post _
    simp [Content.nextSibling]
  | cons a t ih =>
    intro post hpre
    have ha : a ≠ x := fun h => hpre (by simp [h])
    simp only [List.cons_append, Content.nextSibling, if_neg ha, List.append_eq]
    exact ih post (fun hc => hpre (by simp [hc]))

theorem domInsertBefore_perm (l : List String) (x : String) (r : Option String)
    (hx : x ∈ l) : List.Perm (Content.domInsertBefore l x r) l := by
  cases r with
  | none =>
    simp only [Content.domInsertBefore]
    exact (List.perm_append_singleton x (l.erase x)).trans (List.perm_cons_erase hx).symm
  | some rr =>
    simp only [Content.domInsertBefore]
    split
    · exact List.Perm.refl l
    · exact (insertBeforeIn_perm x rr (l.erase x)).trans (List.perm_cons_erase hx).symm

theorem moveLoop_decomp (full : List String) (hfull : full.Nodup) :
    ∀ (rest done A C : List String),
      full = done ++ rest →
      (A ++ (done ++ C)).Nodup →
      (∀ x ∈ rest, x ∈ A ∨ x ∈ C) →
      (∀ x, (x ∈ A ∨ x ∈ C) → x ∈ full → x ∈ rest) →
      ∃ A2 C2,
        Content.moveLoop (A ++ (done ++ C)) C.head? rest = A2 ++ (full ++ C2) ∧
        (∀ x, (x ∈ A2 ∨ x ∈ C2) → x ∉ full) := by
  intro rest
  induction rest with
  | nil =>
    intro done A C hfd hnod hmem hinv
    rw [List.append_nil] at hfd
    subst hfd
    exact ⟨A, C, rfl, fun x hx hxf => absurd (hinv x hx hxf) (List.not_mem_nil x)⟩
  | cons c rest2 ih =>
    intro done A C hfd hnod hmem hinv
    have hfull2 : (done ++ c :: rest2).Nodup := by
      have h := hfull
      rw [hfd] at h
      exact h
    have hnd_crest : (c :: rest2).Nodup := (List.nodup_append.mp hfull2).2.1
    have hcrest2 : c ∉ rest2 := (List.nodup_cons.mp hnd_crest).1
    have hcdone : c ∉ done := fun hc => (List.nodup_append.mp hfull2).2.2 hc (by simp)
    obtain ⟨hndA, hnd_dc, hdisA⟩ := List.nodup_append.mp hnod
    obtain ⟨hndD, hndC, hdisDC⟩ := List.nodup_append.mp hnd_dc
    have hc := hmem c (by simp)
    have hfd2 : full = (done ++ [c]) ++ rest2 := by
      rw [hfd]
      simp
    cases C with
    | nil =>
      have hcA : c ∈ A := by
        rcases hc with h | h
        · exact h
        · simp at h
      have hcnA : c ∉ A.erase c := fun h2 => ((List.Nodup.mem_erase_iff hndA).mp h2).1 rfl
      have hclmem : c ∈ A ++ (done ++ ([] : List String)) := by simp [hcA]
      have hl2 : Content.domInsertBefore (A ++ (done ++ ([] : List String))) c none =
          A.erase c ++ ((done ++ [c]) ++ ([] : List String)) := by
        simp only [Content.domInsertBefore]
        rw [List.erase_append_left (done ++ ([] : List String)) hcA]
        simp [List.append_assoc]
      have hns : Content.nextSibling
          (A.erase c ++ ((done ++ [c]) ++ ([] : List String))) c =
          (([] : List String)).head? := by
        have hp : c ∉ A.erase c ++ done := by
          simp only [List.mem_append]
          rintro (h | h)
          · exact hcnA h
          · exact hcdone h
        have := nextSibling_spec c (A.erase c ++ done) [] hp
        simpa [List.append_assoc] using this
      have hperm : List.Perm (A.erase c ++ ((done ++ [c]) ++ ([] : List String)))
          (A ++ (done ++ ([] : List String))) := by
        rw [← hl2]
        exact domInsertBefore_perm _ c none hclmem
      have hnod2 : (A.erase c ++ ((done ++ [c]) ++ ([] : List String))).Nodup :=
        hperm.nodup_iff.mpr hnod
      have hmem2 : ∀ x ∈ rest2, x ∈ A.erase c ∨ x ∈ ([] : List String) := by
        intro x hx
        left
        have hxa : x ∈ A := by
          rcases hmem x (by simp [hx]) with h | h
          · exact h
          · simp at h
        have hxc : x ≠ c := fun h => hcrest2 (h ▸ hx)
        exact (List.mem_erase_of_ne hxc).mpr hxa
      have hinv2 : ∀ x, (x ∈ A.erase c ∨ x ∈ ([] : List String)) → x ∈ full → x ∈ rest2 := by
        intro x hx hxf
        rcases hx with hx | hx
        · obtain ⟨hxc, hxa⟩ := (List.Nodup.mem_erase_iff hndA).mp hx
          have h3 := hinv x (Or.inl hxa) hxf
          rcases List.mem_cons.mp h3 with h | h
          · exact absurd h hxc
          · exact h
        · simp at hx
      obtain ⟨A2, C2, heq, hdis⟩ := ih (done ++ [c]) (A.erase c) [] hfd2 hnod2 hmem2 hinv2
      refine ⟨A2, C2, ?_, hdis⟩
      simp only [Content.moveLoop, List.head?_nil]
      rw [hl2, hns]
      exact heq
    | cons rr C0 =>
      have hrrC : rr ∈ done ++ rr :: C0 := by simp
      have hrrA : rr ∉ A := fun h => hdisA h hrrC
      have hrrD : rr ∉ done := fun h => hdisDC h (by simp)
      by_cases hcrr : c = rr
      · subst hcrr
        have hcnA : c ∉ A := fun h => hdisA h hrrC
        have hcC0 : c ∉ C0 := (List.nodup_cons.mp hndC).1
        have hl2 : Content.domInsertBefore (A ++ (done ++ c :: C0)) c (some c) =
            A ++ ((done ++ [c]) ++ C0) := by
          simp [Content.domInsertBefore, List.append_assoc]
        have hns : Content.nextSibling (A ++ ((done ++ [c]) ++ C0)) c = C0.head? := by
          have hp : c ∉ A ++ done := by
            simp only [List.mem_append]
            rintro (h | h)
            · exact hcnA h
            · exact hcdone h
          have := nextSibling_spec c (A ++ done) C0 hp
          simpa [List.append_assoc] using this
        have hnod2 : (A ++ ((done ++ [c]) ++ C0)).Nodup := by
          simpa [List.append_assoc] using hnod
        have hmem2 : ∀ x ∈ rest2, x ∈ A ∨ x ∈ C0 := by
          intro x hx
          have hxc : x ≠ c := fun h => hcrest2 (h ▸ hx)
          rcases hmem x (by simp [hx]) with h | h
          · exact Or.inl h
          · rcases List.mem_cons.mp h with h2 | h2
            · exact absurd h2 hxc
            · exact Or.inr h2
        have hinv2 : ∀ x, (x ∈ A ∨ x ∈ C0) → x ∈ full → x ∈ rest2 := by
          intro x hx hxf
          have h3 : x ∈ c :: rest2 := by
            rcases hx with hx | hx
            · exact hinv x (Or.inl hx) hxf
            · exact hinv x (Or.inr (by simp [hx])) hxf
          rcases List.mem_cons.mp h3 with h | h
          · subst h
            rcases hx with hx | hx
            · exact absurd hx hcnA
            · exact absurd hx hcC0
          · exact h
        obtain ⟨A2, C2, heq, hdis⟩ := ih (done ++ [c]) A C0 hfd2 hnod2 hmem2 hinv2
        refine ⟨A2, C2, ?_, hdis⟩
        simp only [Content.moveLoop, List.head?_cons]
        rw [hl2, hns]
        exact heq
      · rcases hc with hcA | hcC
        · -- c sits in the prefix A
          have hcnA : c ∉ A.erase c := fun h2 => ((List.Nodup.mem_erase_iff hndA).mp h2).1 rfl
          have hcC : c ∉ rr :: C0 := fun h => hdisA hcA (by simp [h])
          have hclmem : c ∈ A ++ (done ++ rr :: C0) := by simp [hcA]
          have hl2 : Content.domInsertBefore (A ++ (done ++ rr :: C0)) c (some rr) =
              A.erase c ++ ((done ++ [c]) ++ rr :: C0) := by
            simp only [Content.domInsertBefore, if_neg hcrr]
            rw [List.erase_append_left (done ++ rr :: C0) hcA]
            have hp : rr ∉ A.erase c ++ done := by
              simp only [List.mem_append]
              rintro (h | h)
              · exact hrrA (List.mem_of_mem_erase h)
              · exact hrrD h
            have hins := insertBeforeIn_eq c rr (A.erase c ++ done) C0 hp
            simp only [List.append_assoc] at hins
            simpa [List.append_assoc] using hins
          have hns : Content.nextSibling (A.erase c ++ ((done ++ [c]) ++ rr :: C0)) c =
              (rr :: C0).head? := by
            have hp : c ∉ A.erase c ++ done := by
              simp only [List.mem_append]
              rintro (h | h)
              · exact hcnA h
              · exact hcdone h
            have := nextSibling_spec c (A.erase c ++ done) (rr :: C0) hp
            simpa [List.append_assoc] using this
          have hperm : List.Perm (A.erase c ++ ((done ++ [c]) ++ rr :: C0))
              (A ++ (done ++ rr :: C0)) := by
            rw [← hl2]
            exact domInsertBefore_perm _ c (some rr) hclmem
          have hnod2 : (A.erase c ++ ((done ++ [c]) ++ rr :: C0)).Nodup :=
            hperm.nodup_iff.mpr hnod
          have hmem2 : ∀ x ∈ rest2, x ∈ A.erase c ∨ x ∈ rr :: C0 := by
            intro x hx
            have hxc : x ≠ c := fun h => hcrest2 (h ▸ hx)
            rcases hmem x (by simp [hx]) with h | h
            · exact Or.inl ((List.mem_erase_of_ne hxc).mpr h)
            · exact Or.inr h
          have hinv2 : ∀ x, (x ∈ A.erase c ∨ x ∈ rr :: C0) → x ∈ full → x ∈ rest2 := by
            intro x hx hxf
            have h3 : x ∈ c :: rest2 := by
              rcases hx with hx | hx
              · exact hinv x (Or.inl (List.mem_of_mem_erase hx)) hxf
              · exact hinv x (Or.inr hx) hxf
            rcases List.mem_cons.mp h3 with h | h
            · subst h
              rcases hx with hx | hx
              · exact absurd hx hcnA
              · exact absurd hx hcC
            · exact h
          obtain ⟨A2, C2, heq, hdis⟩ :=
            ih (done ++ [c]) (A.erase c) (rr :: C0) hfd2 hnod2 hmem2 hinv2
          refine ⟨A2, C2, ?_, hdis⟩
          simp only [Content.moveLoop, List.head?_cons]
          rw [hl2, hns]
          exact heq
        · -- c sits inside C0
          have hcC0 : c ∈ C0 := by
            rcases List.mem_cons.mp hcC with h | h
            · exact absurd h hcrr
            · exact h
          have hcnA : c ∉ A := fun h => hdisA h (by simp [hcC0])
          have hndC0 : C0.Nodup := (List.nodup_cons.mp hndC).2
          have hcne : c ∉ C0.erase c := fun h2 =>
            ((List.Nodup.mem_erase_iff hndC0).mp h2).1 rfl
          have hclmem : c ∈ A ++ (done ++ rr :: C0) := by simp [hcC0]
          have hbe : ¬(rr == c) = true := by
            simp only [beq_iff_eq]
            exact fun h => hcrr (h.symm)
          have hl2 : Content.domInsertBefore (A ++ (done ++ rr :: C0)) c (some rr) =
              A ++ ((done ++ [c]) ++ rr :: C0.erase c) := by
            simp only [Content.domInsertBefore, if_neg hcrr]
            rw [List.erase_append_right (done ++ rr :: C0) hcnA,
              List.erase_append_right (rr :: C0) hcdone,
              List.erase_cons_tail hbe]
            have hp : rr ∉ A ++ done := by
              simp only [List.mem_append]
              rintro (h | h)
              · exact hrrA h
              · exact hrrD h
            have hins := insertBeforeIn_eq c rr (A ++ done) (C0.erase c) hp
            simp only [List.append_assoc] at hins
            simpa [List.append_assoc] using hins
          have hns : Content.nextSibling (A ++ ((done ++ [c]) ++ rr :: C0.erase c)) c =
              (rr :: C0.erase c).head? := by
            have hp : c ∉ A ++ done := by
              simp only [List.mem_append]
              rintro (h | h)
              · exact hcnA h
              · exact hcdone h
            have := nextSibling_spec c (A ++ done) (rr :: C0.erase c) hp
            simpa [List.append_assoc] using this
          have hperm : List.Perm (A ++ ((done ++ [c]) ++ rr :: C0.erase c))
              (A ++ (done ++ rr :: C0)) := by
            rw [← hl2]
            exact domInsertBefore_perm _ c (some rr) hclmem
          have hnod2 : (A ++ ((done ++ [c]) ++ rr :: C0.erase c)).Nodup :=
            hperm.nodup_iff.mpr hnod
          have hmem2 : ∀ x ∈ rest2, x ∈ A ∨ x ∈ rr :: C0.erase c := by
            intro x hx
            have hxc : x ≠ c := fun h => hcrest2 (h ▸ hx)
            rcases hmem x (by simp [hx]) with h | h
            · exact Or.inl h
            · rcases List.mem_cons.mp h with h2 | h2
              · exact Or.inr (by simp [h2])
              · exact Or.inr (by
                  simp only [List.mem_cons]
                  exact Or.inr ((List.mem_erase_of_ne hxc).mpr h2))
          have hinv2 : ∀ x, (x ∈ A ∨ x ∈ rr :: C0.erase c) → x ∈ full → x ∈ rest2 := by
            intro x hx hxf
            have h3 : x ∈ c :: rest2 := by
              rcases hx with hx | hx
              · exact hinv x (Or.inl hx) hxf
              · rcases List.mem_cons.mp hx with h2 | h2
                · exact hinv x (Or.inr (by simp [h2])) hxf
                · exact hinv x (Or.inr (by
                    simp only [List.mem_cons]
                    exact Or.inr (List.mem_of_mem_erase h2))) hxf
            rcases List.mem_cons.mp h3 with h | h
            · subst h
              rcases hx with hx | hx
              · exact absurd hx hcnA
              · rcases List.mem_cons.mp hx with h2 | h2
                · exact absurd h2 hcrr
                · exact absurd h2 hcne
            · exact h
          obtain ⟨A2, C2, heq, hdis⟩ :=
            ih (done ++ [c]) A (rr :: C0.erase c) hfd2 hnod2 hmem2 hinv2
          refine ⟨A2, C2, ?_, hdis⟩
          simp only [Content.moveLoop, List.head?_cons]
          rw [hl2, hns]
          exact heq

theorem orderedInsert_prio_eq_pos (children : List String) (a : String × Nat) :
    ∀ m : List (String × Nat),
      (∀ b ∈ m, children.indexOf a.1 ≤ children.indexOf b.1) →
      List.orderedInsert Content.prioLE a m =
        List.orderedInsert (Content.prioPosLE children) a m := by
  intro m
  induction m with
  | nil => intro _; rfl
  | cons b m2 ih =>
    intro hpos
    have hb := hpos b (by simp)
    by_cases h : Content.prioLE a b
    · have h2 : Content.prioPosLE children a b := by
        rcases Nat.lt_or_ge a.2 b.2 with hlt | hge
        · exact Or.inl hlt
        · exact Or.inr ⟨Nat.le_antisymm h hge, hb⟩
      rw [List.orderedInsert, List.orderedInsert, if_pos h, if_pos h2]
    · have h2 : ¬ Content.prioPosLE children a b := by
        intro hc
        rcases hc with hc | hc
        · exact h (Nat.le_of_lt hc)
        · exact h (Nat.le_of_eq hc.1)
      rw [List.orderedInsert, List.orderedInsert, if_neg h, if_neg h2]
      rw [ih (fun x hx => hpos x (by simp [hx]))]

theorem insertionSort_prio_eq_pos (children : List String) :
    ∀ entries : List (String × Nat),
      List.Pairwise (fun a b => children.indexOf a.1 < children.indexOf b.1) entries →
      List.insertionSort Content.prioLE entries =
        Content.specPrioritySort children entries := by
  intro entries
  induction entries with
  | nil => intro _; rfl
  | cons a l ih =>
    intro hp
    obtain ⟨ha, hl⟩ := List.pairwise_cons.mp hp
    unfold Content.specPrioritySort at ih ⊢
    rw [List.insertionSort, List.insertionSort, ih hl]
    apply orderedInsert_prio_eq_pos
    intro b hb
    have hbl : b ∈ l := by
      rw [List.mem_insertionSort] at hb
      exact hb
    exact Nat.le_of_lt (ha b hbl)

/-! ### C7: batch reordering -/

/-- C7 counterexample: two same-parent containers in document order
a, b with equal (allow) priority, whose batch entries resolve in the
order b, a (as happens when b was a background-cache hit and a a fresh
classification). The containers are already in priority order, yet the
code performs moves and reorders the document to b, a — whereas the
claim's stable sort by priority then original document position keeps
a, b and predicts no DOM mutation. -/
theorem c7_counterexample :
    Content.reorderBatch true true ["a", "b"]
        [⟨some "b", true, "allow"⟩, ⟨some "a", true, "allow"⟩] =
      ⟨["b", "a"], true⟩ ∧
    (Content.specPrioritySort ["a", "b"]
        (Content.eligibleEntries
          [⟨some "b", true, "allow"⟩, ⟨some "a", true, "allow"⟩])).map Prod.fst =
      ["a", "b"] ∧
    (["b", "a"] : List String) ≠ ["a", "b"] :=
  ⟨by decide, by decide, by decide⟩

/-- C7 amended: reordering is skipped when the feature is disabled,
outside the feed view, with fewer than two eligible entries, or when
some entry cell is not a child of the shared parent; when the sorted
cells' document positions are already nondecreasing, no DOM mutation
happens at all; otherwise moves are performed and the post-reorder
document order of the batch cells is exactly the stable sort of the
resolved entries by verdict priority in resolution order — which
coincides with the claim's stable sort by priority then original
document position exactly when the entries were resolved in document
order. -/
theorem c7_reorder_batch :
    (∀ (onFeed : Bool) (children : List String) (items : List Content.BatchItem),
      Content.reorderBatch onFeed false children items = ⟨children, false⟩) ∧
    (∀ (enabled : Bool) (children : List String) (items : List Content.BatchItem),
      Content.reorderBatch false enabled children items = ⟨children, false⟩) ∧
    (∀ (children : List String) (items : List Content.BatchItem),
      (Content.eligibleEntries items).length < 2 →
      Content.reorderBatch true true children items = ⟨children, false⟩) ∧
    (∀ (children : List String) (items : List Content.BatchItem),
      (Content.eligibleEntries items).all (fun e => children.contains e.1) = false →
      Content.reorderBatch true true children items = ⟨children, false⟩) ∧
    (∀ (children : List String) (items : List Content.BatchItem),
      Content.isNondecreasing
        ((List.insertionSort Content.prioLE (Content.eligibleEntries items)).map
          (fun e => children.indexOf e.1)) = true →
      Content.reorderBatch true true children items = ⟨children, false⟩) ∧
    (∀ (children : List String) (items : List Content.BatchItem),
      children.Nodup →
      ((Content.eligibleEntries items).map Prod.fst).Nodup →
      (Content.eligibleEntries items).all (fun e => children.contains e.1) = true →
      ¬ (Content.eligibleEntries items).length < 2 →
      Content.isNondecreasing
        ((List.insertionSort Content.prioLE (Content.eligibleEntries items)).map
          (fun e => children.indexOf e.1)) = false →
      (Content.reorderBatch true true children items).moved = true ∧
      (Content.reorderBatch true true children items).children.filter
          (fun x => ((List.insertionSort Content.prioLE
            (Content.eligibleEntries items)).map Prod.fst).contains x) =
        (List.insertionSort Content.prioLE (Content.eligibleEntries items)).map
          Prod.fst) ∧
    (∀ (children : List String) (entries : List (String × Nat)),
      List.Pairwise (fun a b => children.indexOf a.1 < children.indexOf b.1) entries →
      List.insertionSort Content.prioLE entries =
        Content.specPrioritySort children entries) := by
  refine ⟨?_, ?_, ?_, ?_, ?_, ?_, insertionSort_prio_eq_pos⟩
  · intro onFeed children items
    simp [Content.reorderBatch]
  · intro enabled children items
    cases enabled <;> simp [Content.reorderBatch]
  · intro children items hlen
    simp [Content.reorderBatch, if_pos hlen]
  · intro children items hall
    simp only [Content.reorderBatch, Bool.not_true, Bool.or_self, Bool.false_eq_true,
      if_false, hall, Bool.not_false, if_true]
    split
    · rfl
    · rfl
  · intro children items hsor
    simp only [Content.reorderBatch, Bool.not_true, Bool.or_self, Bool.false_eq_true,
      if_false, hsor]
    split
    · rfl
    · split
      · rfl
      · simp [hsor]
  · intro children items hndch hndent hall hlen2 hnotsorted
    have hre : Content.reorderBatch true true children items =
        ⟨Content.moveLoop children
          (children.get?
            (Content.earliestIndex children
              ((List.insertionSort Content.prioLE (Content.eligibleEntries items)).map
                Prod.fst)))
          ((List.insertionSort Content.prioLE (Content.eligibleEntries items)).map
            Prod.fst), true⟩ := by
      simp only [Content.reorderBatch, Bool.not_true, Bool.or_self, Bool.false_eq_true,
        if_false, if_neg hlen2, hall, Bool.not_true, hnotsorted]
    have hperm : List.Perm
        (List.insertionSort Content.prioLE (Content.eligibleEntries items))
        (Content.eligibleEntries items) :=
      List.perm_insertionSort Content.prioLE (Content.eligibleEntries items)
    have hfull : ((List.insertionSort Content.prioLE
        (Content.eligibleEntries items)).map Prod.fst).Nodup :=
      ((hperm.map Prod.fst).nodup_iff).mpr hndent
    have hsubch : ∀ x ∈ (List.insertionSort Content.prioLE
        (Content.eligibleEntries items)).map Prod.fst, x ∈ children := by
      intro x hx
      obtain ⟨e, he, hek⟩ := List.mem_map.mp hx
      have hee : e ∈ Content.eligibleEntries items := by
        rw [List.mem_insertionSort] at he
        exact he
      have := List.all_eq_true.mp hall e hee
      rw [← hek]
      simpa using this
    set eIdx := Content.earliestIndex children
      ((List.insertionSort Content.prioLE (Content.eligibleEntries items)).map
        Prod.fst) with heidx
    have hhead : (children.drop eIdx).head? = children.get? eIdx := by
      rw [← List.get?_zero, List.get?_drop, Nat.add_zero]
    obtain ⟨A2, C2, heq, hdis⟩ :=
      moveLoop_decomp
        ((List.insertionSort Content.prioLE (Content.eligibleEntries items)).map
          Prod.fst) hfull
        ((List.insertionSort Content.prioLE (Content.eligibleEntries items)).map
          Prod.fst)
        [] (children.take eIdx) (children.drop eIdx) rfl
        (by
          rw [List.nil_append, List.take_append_drop]
          exact hndch)
        (by
          intro x hx
          have hxc := hsubch x hx
          rw [← List.take_append_drop eIdx children] at hxc
          exact List.mem_append.mp hxc)
        (fun x _ hxf => hxf)
    have hsplit : children.take eIdx ++ ([] ++ children.drop eIdx) = children := by
      rw [List.nil_append, List.take_append_drop]
    rw [hsplit, hhead] at heq
    constructor
    · rw [hre]
    · rw [hre]
      show (Content.moveLoop children (children.get? eIdx)
          ((List.insertionSort Content.prioLE (Content.eligibleEntries items)).map
            Prod.fst)).filter _ = _
      rw [heq, List.filter_append, List.filter_append]
      have hfA2 : A2.filter (fun x =>
          ((List.insertionSort Content.prioLE (Content.eligibleEntries items)).map
            Prod.fst).contains x) = [] := by
        rw [List.filter_eq_nil_iff]
        intro x hx
        simp [hdis x (Or.inl hx)]
      have hfC2 : C2.filter (fun x =>
          ((List.insertionSort Content.prioLE (Content.eligibleEntries items)).map
            Prod.fst).contains x) = [] := by
        rw [List.filter_eq_nil_iff]
        intro x hx
        simp [hdis x (Or.inr hx)]
      have hffull : ((List.insertionSort Content.prioLE
          (Content.eligibleEntries items)).map Prod.fst).filter (fun x =>
          ((List.insertionSort Content.prioLE (Content.eligibleEntries items)).map
            Prod.fst).contains x) =
          (List.insertionSort Content.prioLE (Content.eligibleEntries items)).map
            Prod.fst := by
        rw [List.filter_eq_self]
        intro x hx
        simp [hx]
      rw [hfA2, hfC2, hffull, List.nil_append, List.append_nil]

/-- Witness for the amended C7 at the spec's own example: three
same-parent containers x, y, z in that document order with verdicts
block, nourish, allow; the code moves them and the resulting relative
order of the three cells is nourish, allow, block (y, z, x); and since
the entries are resolved in document order the code's sort agrees with
the stable sort by priority then original position. -/
theorem c7_witness :
    ((Content.reorderBatch true true ["x", "y", "z"]
        [⟨some "x", true, "block"⟩, ⟨some "y", true, "nourish"⟩,
          ⟨some "z", true, "allow"⟩]).moved = true ∧
      (Content.reorderBatch true true ["x", "y", "z"]
          [⟨some "x", true, "block"⟩, ⟨some "y", true, "nourish"⟩,
            ⟨some "z", true, "allow"⟩]).children.filter
          (fun x => ((List.insertionSort Content.prioLE
            (Content.eligibleEntries
              [⟨some "x", true, "block"⟩, ⟨some "y", true, "nourish"⟩,
                ⟨some "z", true, "allow"⟩])).map Prod.fst).contains x) =
        (List.insertionSort Content.prioLE
          (Content.eligibleEntries
            [⟨some "x", true, "block"⟩, ⟨some "y", true, "nourish"⟩,
              ⟨some "z", true, "allow"⟩])).map Prod.fst) ∧
    List.insertionSort Content.prioLE
        (Content.eligibleEntries
          [⟨some "x", true, "block"⟩, ⟨some "y", true, "nourish"⟩,
            ⟨some "z", true, "allow"⟩]) =
      Content.specPrioritySort ["x", "y", "z"]
        (Content.eligibleEntries
          [⟨some "x", true, "block"⟩, ⟨some "y", true, "nourish"⟩,
            ⟨some "z", true, "allow"⟩]) :=
  ⟨c7_reorder_batch.2.2.2.2.2.1 ["x", "y", "z"]
      [⟨some "x", true, "block"⟩, ⟨some "y", true, "nourish"⟩,
        ⟨some "z", true, "allow"⟩]
      (by decide) (by decide) (by decide) (by decide) (by decide),
    c7_reorder_batch.2.2.2.2.2.2 ["x", "y", "z"]
      (Content.eligibleEntries
        [⟨some "x", true, "block"⟩, ⟨some "y", true, "nourish"⟩,
          ⟨some "z", true, "allow"⟩])
      (by decide)⟩

/-! ### C10: foreign-sender messages -/

/-- C10: a runtime message whose sender id differs from the extension's
own id is answered with null and produces no state change at all: the
handler returns the store untouched, for every message and every
environment. -/
theorem c10_foreign_sender_rejected (extId senderId : String) (env : Env)
    (msg : Option Msg) (st : Store) (h : senderId ≠ extId) :
    onMessage extId senderId env msg st = (st, Resp.nullResp) := by
  cases msg with
  | none => rfl
  | some m => simp [onMessage, h]

/-- Witness for C10: a heartbeat message from a foreign sender leaves a
concrete store untouched and is answered with null. -/
theorem c10_witness :
    onMessage "ext-id" "other-extension"
      ⟨"2025-06-01", 0, AttemptOutcome.netError, AttemptOutcome.netError,
        APIAttempt.netError, APIAttempt.netError, true⟩
      (some Msg.heartbeat)
      ⟨some ⟨"2025-06-01", 0⟩, none, some ⟨some 60, none, none⟩, none, [], some false⟩ =
    (⟨some ⟨"2025-06-01", 0⟩, none, some ⟨some 60, none, none⟩, none, [], some false⟩,
      Resp.nullResp) :=
  c10_foreign_sender_rejected "ext-id" "other-extension"
    ⟨"2025-06-01", 0, AttemptOutcome.netError, AttemptOutcome.netError,
      APIAttempt.netError, APIAttempt.netError, true⟩
    (some Msg.heartbeat)
    ⟨some ⟨"2025-06-01", 0⟩, none, some ⟨some 60, none, none⟩, none, [], some false⟩
    (by decide)

end XShield
